import Mathlib

/-!
# Verification of the `pathlib` archive compression/extraction subsystem

This file develops a shallow embedding of `pathlib/compress.go` (the
`ZipDir` / `TarGzDir` compression functions and the `Unzip` / `Untar`
extraction functions of the `coghost/toolbox` repository) together with the
path-manipulation helpers they rely on (`FsPath.Join`, `Parent`,
`MkParentDir`, `Walk`, `prepareCompression`), and proves the testable
properties stated in the repository's specification against it.

Modelling conventions:
* An absolute path is represented by its list of components
  (`List String`); the filesystem root `/` is `[]`.  This matches the
  invariant of the source (`absPath` is always a cleaned absolute path).
* `filepath.Join` followed by `filepath.Clean` is modelled by splitting the
  joined relative name on `'/'` and folding the components onto the base,
  where `""` and `"."` are dropped and `".."` removes the last component
  (cf. Go's `path/filepath.Clean` on rooted paths).
* The filesystem is an association list from paths to nodes (directories
  with a mode, or regular files with a mode and a byte list); a prepended
  binding shadows older ones, so the head-most binding is current.
* Archive containers are abstracted by their entry lists: a zip or tar.gz
  file produced by compression is represented by the list of entries that a
  standard reader would yield when reading it back.
* Byte streams delivered without I/O error are represented by the list of
  bytes delivered (`data`); `io.Copy` over a `LimitReader` therefore writes
  `min limit data.length` bytes.
* Machine integers: `MaxSize` and tar's `header.Size` are `int64` in Go and
  are modelled as `Int`; zip's `UncompressedSize64` is `uint64` and is
  modelled as `Nat`; the Go conversion `uint64(maxSize)` is modelled by
  reduction mod `2^64`.
-/

namespace Pathlib

/-! ## Strings as character lists -/

/-- Model of `strings.Split(s, "/")` (as used by `filepath.Clean`'s
component scan): split a string at every `'/'`. -/
def splitSlashAux : List Char → List Char → List String
  | [], cur => [String.mk cur]
  | c :: rest, cur =>
      if c = '/' then String.mk cur :: splitSlashAux rest []
      else splitSlashAux rest (cur ++ [c])

def splitSlash (s : String) : List String :=
  splitSlashAux s.data []

/-- Model of `strings.Join(q, "/")` — used for the relative path that
`filepath.Rel(root, path)` produces for a strict descendant. -/
def intercalateSlash : List String → String
  | [] => ""
  | c :: rest => if rest = [] then c else c ++ "/" ++ intercalateSlash rest

/-- Model of `filepath.IsAbs` on Unix: the path starts with `'/'`. -/
def isAbsStr (s : String) : Bool :=
  s.data.head? = some '/'

/-- Model of `strings.HasPrefix`. -/
def hasPrefixStr (p s : String) : Bool :=
  decide (p.data <+: s.data)

/-- Model of `strings.HasSuffix`. -/
def endsWithStr (s suf : String) : Bool :=
  decide (suf.data <:+ s.data)

/-- Model of `strings.TrimSuffix`. -/
def trimSuffixStr (s suf : String) : String :=
  if endsWithStr s suf then String.mk (s.data.take (s.data.length - suf.data.length)) else s

/-- `prepareCompression`'s file-name fixing: append the extension when the
given name does not already end with it. -/
def withExtension (fileName extension : String) : String :=
  if endsWithStr fileName extension then fileName else fileName ++ extension

/-! ## Cleaned absolute paths -/

/-- One step of `filepath.Clean`'s component processing on a rooted path:
empty components and `"."` are dropped, `".."` removes the last component
(at the root it is dropped), anything else is appended. -/
def applyComponent (acc : List String) (c : String) : List String :=
  if c = "" then acc
  else if c = "." then acc
  else if c = ".." then acc.dropLast
  else acc ++ [c]

/-- Model of `FsPath.Join` (path_manipulation.go): if the joined component
is absolute it replaces the base (`filepath.Join(others...)`), otherwise
the result is `filepath.Join(base, name)`, i.e. `Clean` of the
concatenation. -/
def fsJoin (base : List String) (name : String) : List String :=
  if isAbsStr name then (splitSlash name).foldl applyComponent []
  else (splitSlash name).foldl applyComponent base

/-- The characters of the rendered absolute path: `'/'` before each
component. -/
def renderChars : List String → List Char
  | [] => []
  | c :: rest => '/' :: (c.data ++ renderChars rest)

/-- Rendered absolute path string (`absPath` of the source): `"/"` for the
root, otherwise `"/a/b/…"`. -/
def render (p : List String) : String :=
  if p = [] then "/" else String.mk (renderChars p)

/-- A well-formed stored path component, as guaranteed for the names that
an on-disk tree can actually contain. -/
def wfComponent (c : String) : Prop :=
  c ≠ "" ∧ c ≠ "." ∧ c ≠ ".." ∧ '/' ∉ c.data

def wfPath (p : List String) : Prop :=
  ∀ c ∈ p, wfComponent c

/-! ## The filesystem model -/

inductive Node where
  | dir (mode : Nat)
  | file (mode : Nat) (content : List Nat)
deriving DecidableEq, Repr

def Node.isFile : Node → Bool
  | .file _ _ => true
  | .dir _ => false

/-- The byte count of a node's content (0 for directories). -/
def Node.contentLen : Node → Nat
  | .file _ c => c.length
  | .dir _ => 0

/-- Filesystem state: an association list from absolute paths (component
lists) to nodes.  The head-most binding for a path is the current one. -/
structure FS where
  entries : List (List String × Node)
deriving DecidableEq, Repr

def FS.lookup (fs : FS) (p : List String) : Option Node :=
  (fs.entries.find? (fun e => decide (e.1 = p))).map Prod.snd

def FS.set (fs : FS) (p : List String) (n : Node) : FS :=
  ⟨(p, n) :: fs.entries⟩

/-- The non-root ancestor chain of a path, shortest first, ending with the
path itself. -/
def prefixesOf (p : List String) : List (List String) :=
  (List.range p.length).map (fun i => p.take (i + 1))

/-- Modelled from the spec: the path abstraction's `MkdirAll` (used by the
extraction code but whose `FsPath` wrapper is not among the provided source
files) must create "a directory (including all missing ancestors) with a
given permission mask".  Creates each missing ancestor as a directory with
the given mode, leaves existing directories untouched, and fails (second
component `false`) when a regular file occupies one of the positions. -/
def FS.mkdirAllAux : FS → List (List String) → Nat → FS × Bool
  | fs, [], _ => (fs, true)
  | fs, q :: rest, perm =>
      match fs.lookup q with
      | some (Node.dir _) => FS.mkdirAllAux fs rest perm
      | some (Node.file _ _) => (fs, false)
      | none => FS.mkdirAllAux (fs.set q (Node.dir perm)) rest perm

def FS.mkdirAll (fs : FS) (p : List String) (perm : Nat) : FS × Bool :=
  FS.mkdirAllAux fs (prefixesOf p) perm

/-- Model of `MkParentDir`: `MkdirAll(filepath.Dir(absPath), 0o755)`. -/
def FS.mkParentDir (fs : FS) (p : List String) : FS × Bool :=
  fs.mkdirAll p.dropLast 0o755

/-- Opening a file for writing and streaming `bytes` into it.
With `trunc = true` this models `O_WRONLY|O_CREATE|O_TRUNC` (the zip path):
an existing file's content is replaced.  With `trunc = false` it models
`O_CREATE|O_RDWR` (the tar path): the first `bytes.length` bytes are
overwritten and the remainder of an existing file's content is kept.  The
permission argument only applies when the file is created.  Opening a
directory fails (`false`). -/
def FS.openWrite (fs : FS) (p : List String) (perm : Nat) (trunc : Bool) (bytes : List Nat) :
    FS × Bool :=
  match fs.lookup p with
  | some (Node.file m old) =>
      (fs.set p (Node.file m (if trunc then bytes else bytes ++ old.drop bytes.length)), true)
  | some (Node.dir _) => (fs, false)
  | none => (fs.set p (Node.file perm bytes), true)

/-- Model of `afero.Fs.Create` (`prepareCompression`): create-or-truncate a
file; fails when a directory is in the way. -/
def FS.createFile (fs : FS) (p : List String) : FS × Bool :=
  match fs.lookup p with
  | some (Node.dir _) => (fs, false)
  | some (Node.file m _) => (fs.set p (Node.file m []), true)
  | none => (fs.set p (Node.file 0o666 []), true)

/-! ## Errors and results -/

/-- The error taxonomy of compress.go: `ErrNotDirectory`,
`ErrIllegalFilePath`, `ErrFileTooLarge`, `ErrIncompleteWrite`, and wrapped
underlying I/O failures. -/
inductive XErr where
  | notDirectory
  | illegalPath
  | fileTooLarge
  | incompleteWrite
  | ioError
deriving DecidableEq, Repr

/-- Result of an extraction call: the filesystem state it leaves behind
(partial output is not rolled back) and the returned error, if any. -/
structure XResult where
  fs : FS
  err : Option XErr
deriving DecidableEq, Repr

/-! ## Archive entries -/

inductive TarType where
  | dir
  | reg
  | other
deriving DecidableEq, Repr

/-- A tar entry as `tar.Reader` yields it: `header.Name`,
`header.Typeflag`, `header.Mode` (an `int64`; only the low bits are used
after masking), `header.Size` (`int64`), and the bytes the reader delivers
for the entry body without I/O error. -/
structure TarEntry where
  name : String
  typeflag : TarType
  mode : Nat
  size : Int
  data : List Nat
deriving DecidableEq, Repr

/-- A zip entry as `zip.Reader` yields it: `file.Name`, whether
`file.FileInfo().IsDir()`, the permission bits of `file.Mode()`,
`file.UncompressedSize64` (`uint64`), and the bytes delivered by
`file.Open()` without I/O error. -/
structure ZipEntry where
  name : String
  isDir : Bool
  mode : Nat
  size : Nat
  data : List Nat
deriving DecidableEq, Repr

/-- Go's `uint64(i)` for an `int64` value: two's-complement
reinterpretation, i.e. reduction mod `2^64`. -/
def uint64OfInt (i : Int) : Nat :=
  (i % (2 : Int) ^ 64).toNat

/-- `MaxSize` default: `1 * 1024 * 1024 * 1024` (1 GiB). -/
def defaultMaxSize : Int := 1 * 1024 * 1024 * 1024

/-! ## Extraction (Untar / Unzip) -/

/-- Model of `extractTarFile`: reject oversized declared sizes, open the
target with `O_CREATE|O_RDWR` and mode `header.Mode & 0o777`, stream
`io.Copy(file, io.LimitReader(tarReader, header.Size))`, then require the
written count to equal the declared size. -/
def extractTarFile (fs : FS) (target : List String) (e : TarEntry) (maxSize : Int) : XResult :=
  if e.size > maxSize then ⟨fs, some XErr.fileTooLarge⟩
  else if (fs.openWrite target (e.mode &&& 0o777) false (e.data.take e.size.toNat)).2 = false then
    ⟨fs, some XErr.ioError⟩
  else if ((min e.size.toNat e.data.length : Nat) : Int) = e.size then
    ⟨(fs.openWrite target (e.mode &&& 0o777) false (e.data.take e.size.toNat)).1, none⟩
  else
    ⟨(fs.openWrite target (e.mode &&& 0o777) false (e.data.take e.size.toNat)).1,
      some XErr.incompleteWrite⟩

/-- One iteration of `Untar`'s entry loop: directories are created with the
declared mode masked to `0o777`; regular files get their parent directory
created and are streamed by `extractTarFile`; every other type flag is
skipped. -/
def untarStep (fs : FS) (subDir : List String) (e : TarEntry) (maxSize : Int) : XResult :=
  match e.typeflag with
  | TarType.dir =>
      if (fs.mkdirAll (fsJoin subDir e.name) (e.mode &&& 0o777)).2 = false then
        ⟨(fs.mkdirAll (fsJoin subDir e.name) (e.mode &&& 0o777)).1, some XErr.ioError⟩
      else ⟨(fs.mkdirAll (fsJoin subDir e.name) (e.mode &&& 0o777)).1, none⟩
  | TarType.reg =>
      if (fs.mkParentDir (fsJoin subDir e.name)).2 = false then
        ⟨(fs.mkParentDir (fsJoin subDir e.name)).1, some XErr.ioError⟩
      else extractTarFile (fs.mkParentDir (fsJoin subDir e.name)).1 (fsJoin subDir e.name) e
        maxSize
  | TarType.other => ⟨fs, none⟩

def untarLoop (fs : FS) (subDir : List String) (es : List TarEntry) (maxSize : Int) : XResult :=
  match es with
  | [] => ⟨fs, none⟩
  | e :: rest =>
      if (untarStep fs subDir e maxSize).err = none then
        untarLoop (untarStep fs subDir e maxSize).fs subDir rest maxSize
      else untarStep fs subDir e maxSize

/-- The extraction subdirectory of `Untar`:
`Path(destDir).Join(strings.TrimSuffix(p.Name, ".tar.gz"))`. -/
def tarSubDir (destDir : List String) (archiveName : String) : List String :=
  fsJoin destDir (trimSuffixStr archiveName ".tar.gz")

/-- Model of `Untar`: create `<destDir>/<name without ".tar.gz">`, then
process the tar entries in order, stopping at the first error. -/
def Untar (fs : FS) (destDir : List String) (archiveName : String) (es : List TarEntry)
    (maxSize : Int) : XResult :=
  if (fs.mkdirAll (tarSubDir destDir archiveName) 0o755).2 = false then
    ⟨(fs.mkdirAll (tarSubDir destDir archiveName) 0o755).1, some XErr.ioError⟩
  else
    untarLoop (fs.mkdirAll (tarSubDir destDir archiveName) 0o755).1
      (tarSubDir destDir archiveName) es maxSize

/-- Model of `extractZipFile`: resolve the target with `FsPath.Join`, check
`strings.HasPrefix(filePath.absPath, destDir.absPath)`, create directory
entries with fixed mode `0o755`, reject `UncompressedSize64 >
uint64(maxSize)`, create the parent directory, open with
`O_WRONLY|O_CREATE|O_TRUNC`, stream through `io.LimitReader(srcFile,
maxSize)`, and require the written count to equal the declared size. -/
def extractZipFile (fs : FS) (destDir : List String) (e : ZipEntry) (maxSize : Int) : XResult :=
  if hasPrefixStr (render destDir) (render (fsJoin destDir e.name)) = false then
    ⟨fs, some XErr.illegalPath⟩
  else if e.isDir then
    if (fs.mkdirAll (fsJoin destDir e.name) 0o755).2 = false then
      ⟨(fs.mkdirAll (fsJoin destDir e.name) 0o755).1, some XErr.ioError⟩
    else ⟨(fs.mkdirAll (fsJoin destDir e.name) 0o755).1, none⟩
  else if e.size > uint64OfInt maxSize then ⟨fs, some XErr.fileTooLarge⟩
  else if (fs.mkParentDir (fsJoin destDir e.name)).2 = false then
    ⟨(fs.mkParentDir (fsJoin destDir e.name)).1, some XErr.ioError⟩
  else if (((fs.mkParentDir (fsJoin destDir e.name)).1).openWrite (fsJoin destDir e.name)
      e.mode true (e.data.take maxSize.toNat)).2 = false then
    ⟨(((fs.mkParentDir (fsJoin destDir e.name)).1).openWrite (fsJoin destDir e.name)
      e.mode true (e.data.take maxSize.toNat)).1, some XErr.ioError⟩
  else if ((min e.data.length maxSize.toNat : Nat) : Int) = (e.size : Int) then
    ⟨(((fs.mkParentDir (fsJoin destDir e.name)).1).openWrite (fsJoin destDir e.name)
      e.mode true (e.data.take maxSize.toNat)).1, none⟩
  else
    ⟨(((fs.mkParentDir (fsJoin destDir e.name)).1).openWrite (fsJoin destDir e.name)
      e.mode true (e.data.take maxSize.toNat)).1, some XErr.incompleteWrite⟩

def zipLoop (fs : FS) (subDir : List String) (es : List ZipEntry) (maxSize : Int) : XResult :=
  match es with
  | [] => ⟨fs, none⟩
  | e :: rest =>
      if (extractZipFile fs subDir e maxSize).err = none then
        zipLoop (extractZipFile fs subDir e maxSize).fs subDir rest maxSize
      else extractZipFile fs subDir e maxSize

/-- The extraction subdirectory of `Unzip`:
`Path(destDir).Join(strings.TrimSuffix(p.Name, ".zip"))`. -/
def zipSubDir (destDir : List String) (archiveName : String) : List String :=
  fsJoin destDir (trimSuffixStr archiveName ".zip")

/-- Model of `Unzip`: create `<destDir>/<name without ".zip">`, then
process the zip entries in order, stopping at the first error. -/
def Unzip (fs : FS) (destDir : List String) (archiveName : String) (es : List ZipEntry)
    (maxSize : Int) : XResult :=
  if (fs.mkdirAll (zipSubDir destDir archiveName) 0o755).2 = false then
    ⟨(fs.mkdirAll (zipSubDir destDir archiveName) 0o755).1, some XErr.ioError⟩
  else
    zipLoop (fs.mkdirAll (zipSubDir destDir archiveName) 0o755).1
      (zipSubDir destDir archiveName) es maxSize

/-! ## Compression (ZipDir / TarGzDir) -/

/-- The `FsPath` receiver data that compression uses: the cleaned absolute
path and the raw path string it was constructed from. -/
structure FsPathM where
  absPath : List String
  rawPath : String
deriving DecidableEq, Repr

/-- Model of `FsPath.IsDir`: true when the raw path ends in `'/'`
(a pure string shortcut), otherwise when the filesystem records a
directory at the absolute path. -/
def isDirB (fs : FS) (p : FsPathM) : Bool :=
  (p.rawPath.data.getLast? = some '/') ||
    (match fs.lookup p.absPath with
     | some (Node.dir _) => true
     | _ => false)

/-- Lexicographic order on component lists: the order in which
`afero.Walk` visits the paths of a tree (lexical order, parents before
descendants). -/
def lexLe : List String → List String → Bool
  | [], _ => true
  | _ :: _, [] => false
  | a :: as, b :: bs => if a = b then lexLe as bs else decide (a < b)

def insertLex (x : List String) : List (List String) → List (List String)
  | [] => [x]
  | y :: rest => if lexLe x y then x :: y :: rest else y :: insertLex x rest

def sortLex (l : List (List String)) : List (List String) :=
  l.foldr insertLex []

/-- What `Walk`'s callback receives for one visited path: the path
relative to the walk root (`"."` for the root itself) and the `FileInfo`
data the callback reads (`IsDir`, mode, and — via the subsequent
`fs.Open` + `io.Copy` in `compressDirectoryToWriter` — the content). -/
structure WalkEntry where
  relPath : String
  isDir : Bool
  mode : Nat
  content : List Nat
deriving DecidableEq, Repr

/-- Model of `filepath.Rel(root, p)` for a path with `root <+: p`. -/
def relPathOf (root p : List String) : String :=
  if p = root then "." else intercalateSlash (p.drop root.length)

def nodeWalkEntry (root q : List String) : Option Node → WalkEntry
  | some (Node.dir m) => ⟨relPathOf root q, true, m, []⟩
  | some (Node.file m c) => ⟨relPathOf root q, false, m, c⟩
  | none => ⟨relPathOf root q, true, 0, []⟩

/-- Model of `FsPath.Walk` (file_listing.go): visit every filesystem path
at or below the root in lexical order, handing the callback the relative
path and the file info. -/
def FS.walkEntries (fs : FS) (root : List String) : List WalkEntry :=
  (sortLex ((fs.entries.map Prod.fst).filter (fun q => decide (root <+: q)))).map
    (fun q => nodeWalkEntry root q (fs.lookup q))

def compressStep (acc : Nat × List (String × Nat × List Nat)) (e : WalkEntry) :
    Nat × List (String × Nat × List Nat) :=
  if e.isDir then acc else (acc.1 + 1, acc.2 ++ [(e.relPath, e.mode, e.content)])

/-- Model of `compressDirectoryToWriter`: walk the tree, skip directories,
and for each regular file hand (relative name, file info mode, content) to
the writer factory, counting the files written.  Returns the count and the
archive's entry list. -/
def compressDirectoryToWriter (fs : FS) (root : List String) :
    Nat × List (String × Nat × List Nat) :=
  (fs.walkEntries root).foldl compressStep (0, [])

/-- Result of `prepareCompression`: the archive path (meaningful only on
success), the filesystem state, and the returned error, if any. -/
structure PrepResult where
  archivePath : List String
  fs : FS
  err : Option XErr
deriving DecidableEq, Repr

/-- Model of `prepareCompression`: reject non-directories with
`ErrNotDirectory` before touching the filesystem, fix the file name's
extension, and create the archive file in the source's parent directory
(`p.Parent().Join(fileName)`). -/
def prepareCompression (fs : FS) (p : FsPathM) (fileName extension : String) : PrepResult :=
  if isDirB fs p = false then ⟨[], fs, some XErr.notDirectory⟩
  else if (fs.createFile (fsJoin p.absPath.dropLast (withExtension fileName extension))).2
      = false then
    ⟨[], (fs.createFile (fsJoin p.absPath.dropLast (withExtension fileName extension))).1,
      some XErr.ioError⟩
  else
    ⟨fsJoin p.absPath.dropLast (withExtension fileName extension),
      (fs.createFile (fsJoin p.absPath.dropLast (withExtension fileName extension))).1, none⟩

/-- Result of `ZipDir` / `TarGzDir`: archive path, file count, the logical
entry list of the written archive (relative name, mode, content), the
filesystem state, and the returned error, if any. -/
structure CompressResult where
  archivePath : List String
  count : Nat
  entries : List (String × Nat × List Nat)
  fs : FS
  err : Option XErr
deriving DecidableEq, Repr

/-- Model of `ZipDir`: prepare the archive file, then stream the walked
tree through the zip writer factory. -/
def ZipDir (fs : FS) (p : FsPathM) (zipFileName : String) : CompressResult :=
  if (prepareCompression fs p zipFileName ".zip").err = none then
    ⟨(prepareCompression fs p zipFileName ".zip").archivePath,
      (compressDirectoryToWriter (prepareCompression fs p zipFileName ".zip").fs p.absPath).1,
      (compressDirectoryToWriter (prepareCompression fs p zipFileName ".zip").fs p.absPath).2,
      (prepareCompression fs p zipFileName ".zip").fs, none⟩
  else
    ⟨[], 0, [], (prepareCompression fs p zipFileName ".zip").fs,
      (prepareCompression fs p zipFileName ".zip").err⟩

/-- Model of `TarGzDir`: prepare the archive file, then stream the walked
tree through the tar-header writer factory. -/
def TarGzDir (fs : FS) (p : FsPathM) (tarGzFileName : String) : CompressResult :=
  if (prepareCompression fs p tarGzFileName ".tar.gz").err = none then
    ⟨(prepareCompression fs p tarGzFileName ".tar.gz").archivePath,
      (compressDirectoryToWriter (prepareCompression fs p tarGzFileName ".tar.gz").fs
        p.absPath).1,
      (compressDirectoryToWriter (prepareCompression fs p tarGzFileName ".tar.gz").fs
        p.absPath).2,
      (prepareCompression fs p tarGzFileName ".tar.gz").fs, none⟩
  else
    ⟨[], 0, [], (prepareCompression fs p tarGzFileName ".tar.gz").fs,
      (prepareCompression fs p tarGzFileName ".tar.gz").err⟩

/-- Reading back a zip archive written by `ZipDir`'s writer factory: each
regular file becomes an entry whose declared `UncompressedSize64` is its
actual byte count.  `zipWriter.Create` stores no mode bits, so on
read-back `file.Mode()` is `0o666` for every entry, regardless of the
source file's mode. -/
def toZipEntry (t : String × Nat × List Nat) : ZipEntry :=
  ⟨t.1, false, 0o666, t.2.2.length, t.2.2⟩

/-- Reading back a tar.gz archive written by `TarGzDir`'s writer factory:
`tar.FileInfoHeader` records the source file's mode and size, and the body
is the file's content. -/
def toTarEntry (t : String × Nat × List Nat) : TarEntry :=
  ⟨t.1, TarType.reg, t.2.1, (t.2.2.length : Int), t.2.2⟩

/-- Number of regular-file nodes at or below `root`. -/
def numFilesUnder (fs : FS) (root : List String) : Nat :=
  fs.entries.countP (fun e => decide (root <+: e.1) && e.2.isFile)

end Pathlib

namespace Pathlib

/-! ## Basic lemmas: filesystem primitives -/

theorem FS.lookup_set_self (fs : FS) (p : List String) (n : Node) :
    (fs.set p n).lookup p = some n := by
  simp [FS.lookup, FS.set, List.find?]

theorem FS.lookup_set_ne (fs : FS) (p q : List String) (n : Node) (h : q ≠ p) :
    (fs.set p n).lookup q = fs.lookup q := by
  have h' : p ≠ q := fun hh => h hh.symm
  simp [FS.lookup, FS.set, List.find?, h']

theorem FS.lookup_cons (e : List String × Node) (tl : List (List String × Node))
    (q : List String) (h : q ≠ e.1) :
    FS.lookup ⟨e :: tl⟩ q = FS.lookup ⟨tl⟩ q := by
  have h' : e.1 ≠ q := fun hh => h hh.symm
  simp [FS.lookup, List.find?, h']

theorem FS.lookup_mem (fs : FS) (q : List String) (n : Node) (h : fs.lookup q = some n) :
    q ∈ fs.entries.map Prod.fst := by
  unfold FS.lookup at h
  match hf : fs.entries.find? (fun e => decide (e.1 = q)) with
  | none => rw [hf] at h; simp at h
  | some e =>
      rw [hf] at h
      have h1 := List.mem_of_find?_eq_some hf
      have h2 := List.find?_some hf
      simp at h2
      subst h2
      exact List.mem_map_of_mem Prod.fst h1

theorem FS.lookup_of_mem_nodup (fs : FS) (q : List String) (n : Node)
    (hnd : (fs.entries.map Prod.fst).Nodup) (h : (q, n) ∈ fs.entries) :
    fs.lookup q = some n := by
  obtain ⟨l⟩ := fs
  induction l with
  | nil => simp at h
  | cons e tl ih =>
      rw [List.map_cons, List.nodup_cons] at hnd
      rcases List.mem_cons.mp h with h1 | h1
      · subst h1
        simp [FS.lookup, List.find?]
      · have hq : q ≠ e.1 := by
          intro hh
          subst hh
          exact hnd.1 (List.mem_map.mpr ⟨(e.1, n), h1, rfl⟩)
        rw [FS.lookup_cons e tl q hq]
        exact ih hnd.2 h1

theorem prefixesOf_mem_iff (p q : List String) :
    q ∈ prefixesOf p ↔ ∃ i, i < p.length ∧ q = p.take (i + 1) := by
  simp [prefixesOf]
  constructor
  · rintro ⟨i, hi, rfl⟩; exact ⟨i, hi, rfl⟩
  · rintro ⟨i, hi, rfl⟩; exact ⟨i, hi, rfl⟩

theorem prefixesOf_length_le (p q : List String) (h : q ∈ prefixesOf p) :
    q.length ≤ p.length := by
  rw [prefixesOf_mem_iff] at h
  obtain ⟨i, _, rfl⟩ := h
  simp [List.length_take]

theorem prefixesOf_is_prefix (p q : List String) (h : q ∈ prefixesOf p) : q <+: p := by
  rw [prefixesOf_mem_iff] at h
  obtain ⟨i, _, rfl⟩ := h
  exact List.take_prefix _ _

theorem self_mem_prefixesOf (p : List String) (h : p ≠ []) : p ∈ prefixesOf p := by
  rw [prefixesOf_mem_iff]
  refine ⟨p.length - 1, ?_, ?_⟩
  · cases p with
    | nil => exact absurd rfl h
    | cons a l => simp
  · have : p.length - 1 + 1 = p.length := by
      cases p with
      | nil => exact absurd rfl h
      | cons a l => simp
    rw [this, List.take_length]

theorem FS.mkdirAllAux_pres (ps : List (List String)) (fs : FS) (perm : Nat)
    (r : List String) (n : Node) (h : fs.lookup r = some n) :
    ((FS.mkdirAllAux fs ps perm).1).lookup r = some n := by
  induction ps generalizing fs with
  | nil => simpa [FS.mkdirAllAux]
  | cons q rest ih =>
      unfold FS.mkdirAllAux
      match hq : fs.lookup q with
      | some (Node.dir m) => exact ih fs h
      | some (Node.file m c) => simpa
      | none =>
          apply ih
          have hrq : r ≠ q := by
            intro hh; subst hh; rw [h] at hq; exact Option.noConfusion hq
          rw [FS.lookup_set_ne fs q r _ hrq]
          exact h

theorem FS.mkdirAllAux_untouched (ps : List (List String)) (fs : FS) (perm : Nat)
    (r : List String) (h : r ∉ ps) :
    ((FS.mkdirAllAux fs ps perm).1).lookup r = fs.lookup r := by
  induction ps generalizing fs with
  | nil => simp [FS.mkdirAllAux]
  | cons q rest ih =>
      have hr1 : r ≠ q := fun hh => h (hh ▸ List.mem_cons_self q rest)
      have hr2 : r ∉ rest := fun hh => h (List.mem_cons_of_mem q hh)
      unfold FS.mkdirAllAux
      match hq : fs.lookup q with
      | some (Node.dir m) => exact ih fs hr2
      | some (Node.file m c) => simp
      | none =>
          rw [ih _ hr2, FS.lookup_set_ne fs q r _ hr1]

theorem FS.mkdirAllAux_files (ps : List (List String)) (fs : FS) (perm : Nat)
    (r : List String) (m : Nat) (c : List Nat) :
    ((FS.mkdirAllAux fs ps perm).1).lookup r = some (Node.file m c) ↔
      fs.lookup r = some (Node.file m c) := by
  induction ps generalizing fs with
  | nil => simp [FS.mkdirAllAux]
  | cons q rest ih =>
      unfold FS.mkdirAllAux
      match hq : fs.lookup q with
      | some (Node.dir dm) => exact ih fs
      | some (Node.file fm fc) => simp
      | none =>
          rw [ih]
          by_cases hr : r = q
          · subst hr
            rw [FS.lookup_set_self, hq]
            simp
          · rw [FS.lookup_set_ne fs q r _ hr]

theorem FS.mkdirAllAux_create (ps : List (List String)) (fs : FS) (perm : Nat)
    (r : List String) (hok : (FS.mkdirAllAux fs ps perm).2 = true)
    (hnone : fs.lookup r = none) (hmem : r ∈ ps) :
    ((FS.mkdirAllAux fs ps perm).1).lookup r = some (Node.dir perm) := by
  induction ps generalizing fs with
  | nil => simp at hmem
  | cons q rest ih =>
      unfold FS.mkdirAllAux at hok ⊢
      match hq : fs.lookup q with
      | some (Node.dir dm) =>
          rw [hq] at hok
          have hr : r ≠ q := by
            intro hh; subst hh; rw [hnone] at hq; exact Option.noConfusion hq
          have hmem' : r ∈ rest := by
            rcases List.mem_cons.mp hmem with h1 | h1
            · exact absurd h1 hr
            · exact h1
          exact ih fs hok hnone hmem'
      | some (Node.file fm fc) =>
          rw [hq] at hok
          simp at hok
      | none =>
          rw [hq] at hok
          by_cases hr : r = q
          · subst hr
            exact FS.mkdirAllAux_pres rest _ perm r _ (FS.lookup_set_self fs r _)
          · have hmem' : r ∈ rest := by
              rcases List.mem_cons.mp hmem with h1 | h1
              · exact absurd h1 hr
              · exact h1
            refine ih _ hok ?_ hmem'
            rw [FS.lookup_set_ne fs q r _ hr]
            exact hnone

theorem FS.mkdirAllAux_ok_of_nofile (ps : List (List String)) (fs : FS) (perm : Nat)
    (h : ∀ q ∈ ps, ∀ m c, fs.lookup q ≠ some (Node.file m c)) :
    (FS.mkdirAllAux fs ps perm).2 = true := by
  induction ps generalizing fs with
  | nil => simp [FS.mkdirAllAux]
  | cons q rest ih =>
      unfold FS.mkdirAllAux
      match hq : fs.lookup q with
      | some (Node.dir dm) =>
          exact ih fs (fun q' hq' => h q' (List.mem_cons_of_mem q hq'))
      | some (Node.file fm fc) =>
          exact absurd hq (h q (List.mem_cons_self q rest) fm fc)
      | none =>
          apply ih
          intro q' hq' m c hc
          by_cases hqq : q' = q
          · subst hqq
            rw [FS.lookup_set_self] at hc
            exact Node.noConfusion (Option.some.inj hc)
          · rw [FS.lookup_set_ne fs q q' _ hqq] at hc
            exact h q' (List.mem_cons_of_mem q hq') m c hc

theorem FS.mkdirAllAux_nofile_of_ok (ps : List (List String)) (fs : FS) (perm : Nat)
    (hok : (FS.mkdirAllAux fs ps perm).2 = true) :
    ∀ q ∈ ps, ∀ m c, fs.lookup q ≠ some (Node.file m c) := by
  induction ps generalizing fs with
  | nil => simp
  | cons q rest ih =>
      unfold FS.mkdirAllAux at hok
      intro q' hq' m c hc
      match hq : fs.lookup q with
      | some (Node.dir dm) =>
          rw [hq] at hok
          rcases List.mem_cons.mp hq' with h1 | h1
          · subst h1; rw [hq] at hc; exact Node.noConfusion (Option.some.inj hc)
          · exact ih fs hok q' h1 m c hc
      | some (Node.file fm fc) =>
          rw [hq] at hok; simp at hok
      | none =>
          rw [hq] at hok
          rcases List.mem_cons.mp hq' with h1 | h1
          · subst h1; rw [hq] at hc; exact Option.noConfusion hc
          · by_cases hqq : q' = q
            · subst hqq; rw [hq] at hc; exact Option.noConfusion hc
            · refine ih _ hok q' h1 m c ?_
              rw [FS.lookup_set_ne fs q q' _ hqq]
              exact hc

end Pathlib

namespace Pathlib

/-! ## Basic lemmas: strings and path components -/

theorem splitSlashAux_no_slash (cs : List Char) (h : '/' ∉ cs) :
    ∀ cur, splitSlashAux cs cur = [String.mk (cur ++ cs)] := by
  induction cs with
  | nil => intro cur; simp [splitSlashAux]
  | cons c rest ih =>
      intro cur
      have hc : c ≠ '/' := fun hh => h (hh ▸ List.mem_cons_self c rest)
      have hr : '/' ∉ rest := fun hh => h (List.mem_cons_of_mem c hh)
      unfold splitSlashAux
      rw [if_neg (fun hh => hc hh)]
      rw [ih hr (cur ++ [c])]
      simp

theorem splitSlashAux_cons_slash (rest cur : List Char) :
    splitSlashAux ('/' :: rest) cur = String.mk cur :: splitSlashAux rest [] := rfl

theorem splitSlashAux_cons (c : Char) (rest cur : List Char) :
    splitSlashAux (c :: rest) cur =
      if c = '/' then String.mk cur :: splitSlashAux rest []
      else splitSlashAux rest (cur ++ [c]) := rfl

theorem intercalateSlash_cons (c : String) (q : List String) :
    intercalateSlash (c :: q) = if q = [] then c else c ++ "/" ++ intercalateSlash q := rfl

theorem splitSlashAux_slash_split (cs : List Char) (h : '/' ∉ cs) (rest : List Char) :
    ∀ cur, splitSlashAux (cs ++ '/' :: rest) cur =
      String.mk (cur ++ cs) :: splitSlashAux rest [] := by
  induction cs with
  | nil =>
      intro cur
      rw [List.nil_append, splitSlashAux_cons_slash]
      simp
  | cons c cs' ih =>
      intro cur
      have hc : c ≠ '/' := fun hh => h (hh ▸ List.mem_cons_self c cs')
      have hr : '/' ∉ cs' := fun hh => h (List.mem_cons_of_mem c hh)
      rw [List.cons_append, splitSlashAux_cons, if_neg hc]
      rw [ih hr (cur ++ [c])]
      simp only [List.append_assoc, List.singleton_append]

theorem splitSlash_single (s : String) (h : '/' ∉ s.data) : splitSlash s = [s] := by
  unfold splitSlash
  rw [splitSlashAux_no_slash s.data h []]
  simp

theorem data_intercalate_cons (c : String) (q : List String) (hq : q ≠ []) :
    (intercalateSlash (c :: q)).data = c.data ++ '/' :: (intercalateSlash q).data := by
  rw [intercalateSlash_cons, if_neg hq]
  rw [String.data_append, String.data_append, List.append_assoc]
  rfl

theorem splitSlash_intercalate (q : List String) (hne : q ≠ [])
    (h : ∀ c ∈ q, '/' ∉ c.data) : splitSlash (intercalateSlash q) = q := by
  induction q with
  | nil => exact absurd rfl hne
  | cons c rest ih =>
      by_cases hr : rest = []
      · subst hr
        unfold intercalateSlash
        rw [if_pos rfl]
        exact splitSlash_single c (h c (List.mem_cons_self c []))
      · unfold splitSlash
        rw [data_intercalate_cons c rest hr]
        rw [splitSlashAux_slash_split c.data (h c (List.mem_cons_self c rest)) _ []]
        simp only [List.nil_append]
        have : String.mk c.data = c := rfl
        rw [this]
        have := ih hr (fun c' hc' => h c' (List.mem_cons_of_mem c hc'))
        unfold splitSlash at this
        rw [this]

theorem foldl_applyComponent_wf (q : List String) (h : wfPath q) :
    ∀ base, q.foldl applyComponent base = base ++ q := by
  induction q with
  | nil => intro base; simp
  | cons c rest ih =>
      intro base
      have hc := h c (List.mem_cons_self c rest)
      have hr : wfPath rest := fun c' hc' => h c' (List.mem_cons_of_mem c hc')
      rw [List.foldl_cons]
      rw [show applyComponent base c = base ++ [c] by
        unfold applyComponent
        rw [if_neg hc.1, if_neg hc.2.1, if_neg hc.2.2.1]]
      rw [ih hr (base ++ [c])]
      simp

theorem isAbsStr_intercalate_wf (q : List String) (hne : q ≠ []) (h : wfPath q) :
    isAbsStr (intercalateSlash q) = false := by
  match q with
  | [] => exact absurd rfl hne
  | c :: rest =>
      have hc := h c (List.mem_cons_self c rest)
      have hcd : c.data ≠ [] := by
        intro hh
        exact hc.1 (by cases c; simp at hh; subst hh; rfl)
      unfold isAbsStr
      have hdata : (intercalateSlash (c :: rest)).data.head? = c.data.head? := by
        by_cases hr : rest = []
        · subst hr
          unfold intercalateSlash
          rw [if_pos rfl]
        · rw [data_intercalate_cons c rest hr]
          match hcc : c.data with
          | [] => exact absurd hcc hcd
          | a :: as => simp
      rw [hdata]
      match hcc : c.data with
      | [] => exact absurd hcc hcd
      | a :: as =>
          have ha : a ≠ '/' := by
            intro hh
            exact hc.2.2.2 (by rw [hcc, hh]; exact List.mem_cons_self _ _)
          simp [ha]

theorem fsJoin_rel (q : List String) (hne : q ≠ []) (h : wfPath q) (base : List String) :
    fsJoin base (intercalateSlash q) = base ++ q := by
  unfold fsJoin
  rw [isAbsStr_intercalate_wf q hne h]
  simp only [Bool.false_eq_true, if_false]
  rw [splitSlash_intercalate q hne (fun c hc => (h c hc).2.2.2)]
  exact foldl_applyComponent_wf q h base

theorem fsJoin_single (c : String) (h : wfComponent c) (base : List String) :
    fsJoin base c = base ++ [c] := by
  unfold fsJoin
  have habs : isAbsStr c = false := by
    unfold isAbsStr
    match hcc : c.data with
    | [] => simp
    | a :: as =>
        have ha : a ≠ '/' := by
          intro hh
          exact h.2.2.2 (by rw [hcc, hh]; exact List.mem_cons_self _ _)
        simp [ha]
  rw [habs]
  simp only [Bool.false_eq_true, if_false]
  rw [splitSlash_single c h.2.2.2]
  rw [show List.foldl applyComponent base [c] = applyComponent base c from rfl]
  unfold applyComponent
  rw [if_neg h.1, if_neg h.2.1, if_neg h.2.2.1]

theorem renderChars_append (a b : List String) :
    renderChars (a ++ b) = renderChars a ++ renderChars b := by
  induction a with
  | nil => simp [renderChars]
  | cons c rest ih => simp [renderChars, ih]

theorem render_hasPrefix_append (a b : List String) :
    hasPrefixStr (render a) (render (a ++ b)) = true := by
  unfold hasPrefixStr
  rw [decide_eq_true_eq]
  match a with
  | [] =>
      match b with
      | [] => exact List.prefix_refl _
      | c :: rest =>
          show ("/" : String).data <+: (render (c :: rest)).data
          unfold render
          rw [if_neg (by simp)]
          show ['/'] <+: renderChars (c :: rest)
          unfold renderChars
          exact ⟨c.data ++ renderChars rest, rfl⟩
  | c :: rest =>
      unfold render
      rw [if_neg (by simp), if_neg (by simp)]
      show (renderChars (c :: rest)) <+: (renderChars ((c :: rest) ++ b))
      rw [renderChars_append]
      exact List.prefix_append _ _

theorem wfComponent_of_ext (s extension : String) (hs : '/' ∉ s.data)
    (hsuf : endsWithStr s extension = true) (hlen : 3 ≤ extension.data.length) :
    wfComponent s := by
  unfold endsWithStr at hsuf
  rw [decide_eq_true_eq] at hsuf
  have hle : extension.data.length ≤ s.data.length := List.IsSuffix.length_le hsuf
  refine ⟨?_, ?_, ?_, hs⟩
  · intro hh; subst hh
    rw [show (("" : String).data).length = 0 from rfl] at hle
    omega
  · intro hh; subst hh
    rw [show (("." : String).data).length = 1 from rfl] at hle
    omega
  · intro hh; subst hh
    rw [show ((".." : String).data).length = 2 from rfl] at hle
    omega

theorem withExtension_no_slash (fileName extension : String) (h1 : '/' ∉ fileName.data)
    (h2 : '/' ∉ extension.data) : '/' ∉ (withExtension fileName extension).data := by
  unfold withExtension
  by_cases he : endsWithStr fileName extension = true
  · rw [if_pos he]; exact h1
  · rw [if_neg he]
    rw [String.data_append]
    intro hh
    rcases List.mem_append.mp hh with hh | hh
    · exact h1 hh
    · exact h2 hh

theorem withExtension_ends (fileName extension : String) :
    endsWithStr (withExtension fileName extension) extension = true := by
  unfold withExtension
  by_cases he : endsWithStr fileName extension = true
  · rw [if_pos he]; exact he
  · rw [if_neg he]
    unfold endsWithStr
    rw [decide_eq_true_eq, String.data_append]
    exact List.suffix_append _ _

theorem withExtension_wf (fileName extension : String) (h1 : '/' ∉ fileName.data)
    (h2 : '/' ∉ extension.data) (hlen : 3 ≤ extension.data.length) :
    wfComponent (withExtension fileName extension) :=
  wfComponent_of_ext _ extension (withExtension_no_slash fileName extension h1 h2)
    (withExtension_ends fileName extension) hlen

end Pathlib

namespace Pathlib

/-! ## Loop equation lemmas -/

theorem untarLoop_cons (fs : FS) (subDir : List String) (e : TarEntry) (rest : List TarEntry)
    (maxSize : Int) :
    untarLoop fs subDir (e :: rest) maxSize =
      if (untarStep fs subDir e maxSize).err = none then
        untarLoop (untarStep fs subDir e maxSize).fs subDir rest maxSize
      else untarStep fs subDir e maxSize := rfl

theorem zipLoop_cons (fs : FS) (subDir : List String) (e : ZipEntry) (rest : List ZipEntry)
    (maxSize : Int) :
    zipLoop fs subDir (e :: rest) maxSize =
      if (extractZipFile fs subDir e maxSize).err = none then
        zipLoop (extractZipFile fs subDir e maxSize).fs subDir rest maxSize
      else extractZipFile fs subDir e maxSize := rfl

/-! ## Claim C1 -/

/-- C1: the specification requires a path-traversal guard in both `Unzip`
and `Untar`; `Untar` has none.  Extracting the tar archive `a.tar.gz` with
the single regular-file entry named `"../../evil"` into destination
`/dest` returns no error and creates the file `/evil`, which is outside
the destination root `/dest` — contradicting the claimed
IllegalPath failure and the claimed confinement. -/
theorem c1_untar_traversal_unguarded :
    (Untar ⟨[(["dest"], Node.dir 0o755)]⟩ ["dest"] "a.tar.gz"
        [⟨"../../evil", TarType.reg, 0o644, 1, [42]⟩] defaultMaxSize).err = none ∧
    (Untar ⟨[(["dest"], Node.dir 0o755)]⟩ ["dest"] "a.tar.gz"
        [⟨"../../evil", TarType.reg, 0o644, 1, [42]⟩] defaultMaxSize).fs.lookup ["evil"]
      = some (Node.file (0o644 &&& 0o777) [42]) ∧
    ¬ ["dest"] <+: ["evil"] := by
  refine ⟨?_, ?_, ?_⟩ <;> decide

/-! ## Claim C9 -/

/-- C9: a tar entry whose type flag is neither `TypeDir` nor `TypeReg` is
silently skipped by `Untar`'s loop: the step changes nothing and returns
no error, and processing continues with the remaining entries. -/
theorem c9_untar_skips_special_entries (fs : FS) (subDir : List String) (e : TarEntry)
    (rest : List TarEntry) (maxSize : Int) (h : e.typeflag = TarType.other) :
    untarStep fs subDir e maxSize = ⟨fs, none⟩ ∧
      untarLoop fs subDir (e :: rest) maxSize = untarLoop fs subDir rest maxSize := by
  have h1 : untarStep fs subDir e maxSize = ⟨fs, none⟩ := by
    unfold untarStep
    rw [h]
  refine ⟨h1, ?_⟩
  rw [untarLoop_cons, h1]
  rfl

theorem c9_untar_skips_special_entries_witness :
    untarStep ⟨[]⟩ ["d"] ⟨"x", TarType.other, 0, 0, []⟩ 5 = ⟨⟨[]⟩, none⟩ ∧
      untarLoop ⟨[]⟩ ["d"] [⟨"x", TarType.other, 0, 0, []⟩] 5 = untarLoop ⟨[]⟩ ["d"] [] 5 :=
  c9_untar_skips_special_entries ⟨[]⟩ ["d"] ⟨"x", TarType.other, 0, 0, []⟩ [] 5 rfl

/-! ## Claim C10 -/

/-- C10: `extractTarFile` opens the destination with `O_CREATE|O_RDWR`
(no `O_TRUNC`), so when a file already exists at the target only the first
`header.Size` bytes are overwritten: on a successful extraction the new
content is the entry's bytes followed by the old content beyond the
declared size, and in particular the old content beyond the declared size
is unchanged. -/
theorem c10_tar_write_keeps_tail (fs : FS) (target : List String) (e : TarEntry)
    (maxSize : Int) (m : Nat) (old : List Nat)
    (hex : fs.lookup target = some (Node.file m old))
    (hsz : ¬ e.size > maxSize)
    (hfull : ((min e.size.toNat e.data.length : Nat) : Int) = e.size) :
    extractTarFile fs target e maxSize =
      ⟨fs.set target (Node.file m (e.data.take e.size.toNat ++ old.drop e.size.toNat)), none⟩ ∧
    (e.data.take e.size.toNat ++ old.drop e.size.toNat).drop e.size.toNat
      = old.drop e.size.toNat := by
  have hk : min e.size.toNat e.data.length = e.size.toNat := by omega
  have hbl : (e.data.take e.size.toNat).length = e.size.toNat := by
    rw [List.length_take]
    exact hk
  constructor
  · simp only [extractTarFile, FS.openWrite, hex, if_neg hsz, hbl, if_pos hfull]
    simp
  · have hd := List.drop_left (e.data.take e.size.toNat) (old.drop e.size.toNat)
    rw [hbl] at hd
    exact hd

theorem c10_tar_write_keeps_tail_witness :
    fsJoin ["out"] "a" = ["out", "a"] ∧
    (FS.lookup ⟨[(["out", "a"], Node.file 0o644 [7, 8, 9, 10])]⟩ ["out", "a"]
      = some (Node.file 0o644 [7, 8, 9, 10])) ∧
    extractTarFile ⟨[(["out", "a"], Node.file 0o644 [7, 8, 9, 10])]⟩ ["out", "a"]
        ⟨"a", TarType.reg, 0o600, 2, [1, 2]⟩ 100 =
      ⟨FS.set ⟨[(["out", "a"], Node.file 0o644 [7, 8, 9, 10])]⟩ ["out", "a"]
        (Node.file 0o644 [1, 2, 9, 10]), none⟩ := by
  have h := c10_tar_write_keeps_tail ⟨[(["out", "a"], Node.file 0o644 [7, 8, 9, 10])]⟩
    ["out", "a"] ⟨"a", TarType.reg, 0o600, 2, [1, 2]⟩ 100 0o644 [7, 8, 9, 10]
    (by decide) (by decide) (by decide)
  exact ⟨by decide, by decide, by rw [h.1]; rfl⟩

end Pathlib

namespace Pathlib

/-! ## Claim C4 -/

/-- C4: for a regular-file entry whose streaming completes without I/O
error, `Untar` and `Unzip` compare the number of bytes written
(`min limit delivered`, from `io.Copy` over the `LimitReader`) with the
entry's declared size, and fail with the distinct `ErrIncompleteWrite`
error — never silent success — whenever they differ. -/
theorem c4_incomplete_write (fs fz : FS) (target destDirZ : List String)
    (e : TarEntry) (z : ZipEntry) (maxSize maxSizeZ : Int) :
    (¬ e.size > maxSize →
      (fs.openWrite target (e.mode &&& 0o777) false (e.data.take e.size.toNat)).2 = true →
      ((min e.size.toNat e.data.length : Nat) : Int) ≠ e.size →
      (extractTarFile fs target e maxSize).err = some XErr.incompleteWrite) ∧
    (¬ hasPrefixStr (render destDirZ) (render (fsJoin destDirZ z.name)) = false →
      z.isDir = false →
      ¬ z.size > uint64OfInt maxSizeZ →
      (fz.mkParentDir (fsJoin destDirZ z.name)).2 = true →
      (((fz.mkParentDir (fsJoin destDirZ z.name)).1).openWrite (fsJoin destDirZ z.name)
          z.mode true (z.data.take maxSizeZ.toNat)).2 = true →
      ((min z.data.length maxSizeZ.toNat : Nat) : Int) ≠ (z.size : Int) →
      (extractZipFile fz destDirZ z maxSizeZ).err = some XErr.incompleteWrite) := by
  constructor
  · intro hsz hok hne
    have hok' : ¬ (fs.openWrite target (e.mode &&& 0o777) false
        (e.data.take e.size.toNat)).2 = false := by
      rw [hok]; decide
    unfold extractTarFile
    rw [if_neg hsz, if_neg hok', if_neg hne]
  · intro hg hd hsz hpd hok hne
    have hpd' : ¬ (fz.mkParentDir (fsJoin destDirZ z.name)).2 = false := by
      rw [hpd]; decide
    have hok' : ¬ (((fz.mkParentDir (fsJoin destDirZ z.name)).1).openWrite
        (fsJoin destDirZ z.name) z.mode true (z.data.take maxSizeZ.toNat)).2 = false := by
      rw [hok]; decide
    unfold extractZipFile
    rw [if_neg hg, hd]
    simp only [Bool.false_eq_true, if_false]
    rw [if_neg hsz, if_neg hpd', if_neg hok', if_neg hne]

theorem c4_incomplete_write_witness :
    (extractTarFile ⟨[]⟩ ["out", "t"] ⟨"t", TarType.reg, 0o644, 5, [1, 2, 3]⟩ 100).err
      = some XErr.incompleteWrite ∧
    (extractZipFile ⟨[]⟩ ["out"] ⟨"z", false, 0o644, 5, [1, 2, 3]⟩ 100).err
      = some XErr.incompleteWrite := by
  have h := c4_incomplete_write ⟨[]⟩ ⟨[]⟩ ["out", "t"] ["out"]
    ⟨"t", TarType.reg, 0o644, 5, [1, 2, 3]⟩ ⟨"z", false, 0o644, 5, [1, 2, 3]⟩ 100 100
  exact ⟨h.1 (by decide) (by decide) (by decide),
    h.2 (by decide) (by decide) (by decide) (by decide) (by decide) (by decide)⟩

/-! ## Claim C3 -/

/-- C3: an entry whose declared size exceeds the configured `MaxSize`
makes extraction fail with the distinct `ErrFileTooLarge` error before any
byte of that entry is written: `Untar`'s loop stops with only the parent
directories of the entry created (the regular files of the filesystem are
exactly those from before), and `Unzip`'s loop stops with the filesystem
completely unchanged; in both cases the remaining entries are never
processed. -/
theorem c3_size_guard (fs fz : FS) (subDir subDirZ : List String) (e : TarEntry)
    (z : ZipEntry) (restT : List TarEntry) (restZ : List ZipEntry) (maxSize maxSizeZ : Int) :
    (e.typeflag = TarType.reg → e.size > maxSize →
      (fs.mkParentDir (fsJoin subDir e.name)).2 = true →
      untarLoop fs subDir (e :: restT) maxSize =
        ⟨(fs.mkParentDir (fsJoin subDir e.name)).1, some XErr.fileTooLarge⟩ ∧
      (∀ q m c, ((fs.mkParentDir (fsJoin subDir e.name)).1).lookup q = some (Node.file m c) ↔
          fs.lookup q = some (Node.file m c))) ∧
    (¬ hasPrefixStr (render subDirZ) (render (fsJoin subDirZ z.name)) = false →
      z.isDir = false → 0 ≤ maxSizeZ → maxSizeZ < 2 ^ 63 → (z.size : Int) > maxSizeZ →
      zipLoop fz subDirZ (z :: restZ) maxSizeZ = ⟨fz, some XErr.fileTooLarge⟩) := by
  constructor
  · intro hflag hsz hok
    have hok' : ¬ (fs.mkParentDir (fsJoin subDir e.name)).2 = false := by
      rw [hok]; decide
    have hstep : untarStep fs subDir e maxSize =
        ⟨(fs.mkParentDir (fsJoin subDir e.name)).1, some XErr.fileTooLarge⟩ := by
      unfold untarStep
      rw [hflag]
      simp only [if_neg hok']
      unfold extractTarFile
      rw [if_pos hsz]
    constructor
    · rw [untarLoop_cons, hstep]
      rfl
    · intro q m c
      exact FS.mkdirAllAux_files _ _ _ q m c
  · intro hg hd h0 h63 hsz
    have hcast : z.size > uint64OfInt maxSizeZ := by
      have hlt : maxSizeZ < (2 : Int) ^ 64 := by
        have h2 : (2 : Int) ^ 63 < 2 ^ 64 := by norm_num
        omega
      have hmod : maxSizeZ % (2 : Int) ^ 64 = maxSizeZ := Int.emod_eq_of_lt h0 hlt
      unfold uint64OfInt
      rw [hmod]
      omega
    have hstep : extractZipFile fz subDirZ z maxSizeZ = ⟨fz, some XErr.fileTooLarge⟩ := by
      unfold extractZipFile
      rw [if_neg hg, hd]
      simp only [Bool.false_eq_true, if_false]
      rw [if_pos hcast]
    rw [zipLoop_cons, hstep]
    rfl

theorem c3_size_guard_witness :
    untarLoop ⟨[(["out"], Node.dir 0o755)]⟩ ["out", "a"]
        [⟨"big", TarType.reg, 0o644, 50, []⟩, ⟨"next", TarType.reg, 0o644, 1, [9]⟩] 10 =
      ⟨(FS.mkParentDir ⟨[(["out"], Node.dir 0o755)]⟩ (fsJoin ["out", "a"] "big")).1,
        some XErr.fileTooLarge⟩ ∧
    zipLoop ⟨[(["out"], Node.dir 0o755)]⟩ ["out", "a"]
        [⟨"big", false, 0o644, 50, []⟩, ⟨"next", false, 0o644, 1, [9]⟩] 10 =
      ⟨⟨[(["out"], Node.dir 0o755)]⟩, some XErr.fileTooLarge⟩ := by
  have h := c3_size_guard ⟨[(["out"], Node.dir 0o755)]⟩ ⟨[(["out"], Node.dir 0o755)]⟩
    ["out", "a"] ["out", "a"] ⟨"big", TarType.reg, 0o644, 50, []⟩ ⟨"big", false, 0o644, 50, []⟩
    [⟨"next", TarType.reg, 0o644, 1, [9]⟩] [⟨"next", false, 0o644, 1, [9]⟩] 10 10
  exact ⟨(h.1 (by decide) (by decide) (by decide)).1,
    h.2 (by decide) (by decide) (by decide) (by decide) (by decide)⟩

end Pathlib

namespace Pathlib

/-! ## Claim C5 -/

/-- C5 (counterexample): the claim fails as stated.  `IsDir` treats any
raw path ending in `'/'` as a directory without consulting the
filesystem, so `ZipDir` on the path handle `Path("/tmp/f.txt/")` — whose
absolute path refers to a regular file — does not return
`ErrNotDirectory`: it succeeds and creates the archive `/tmp/a.zip`,
which did not exist before. -/
theorem c5_compress_counterexample :
    FS.lookup ⟨[(["tmp"], Node.dir 0o755), (["tmp", "f.txt"], Node.file 0o644 [1])]⟩
      ["tmp", "f.txt"] = some (Node.file 0o644 [1]) ∧
    (ZipDir ⟨[(["tmp"], Node.dir 0o755), (["tmp", "f.txt"], Node.file 0o644 [1])]⟩
      ⟨["tmp", "f.txt"], "/tmp/f.txt/"⟩ "a").err = none ∧
    (ZipDir ⟨[(["tmp"], Node.dir 0o755), (["tmp", "f.txt"], Node.file 0o644 [1])]⟩
      ⟨["tmp", "f.txt"], "/tmp/f.txt/"⟩ "a").fs.lookup ["tmp", "a.zip"]
      = some (Node.file 0o666 []) ∧
    FS.lookup ⟨[(["tmp"], Node.dir 0o755), (["tmp", "f.txt"], Node.file 0o644 [1])]⟩
      ["tmp", "a.zip"] = none := by
  refine ⟨?_, ?_, ?_, ?_⟩ <;> decide

/-- C5 (amended): for every source path whose `IsDir()` check fails —
i.e. the raw path does not end in `'/'` and the filesystem does not
record a directory at the absolute path — `ZipDir` and `TarGzDir` return
`ErrNotDirectory` with the filesystem unchanged, and in particular no
archive file is created.  (A raw path ending in `'/'` is treated as a
directory without consulting the filesystem.) -/
theorem c5_amended_not_directory (fs : FS) (p : FsPathM) (zfn tfn : String)
    (h : isDirB fs p = false) :
    ZipDir fs p zfn = ⟨[], 0, [], fs, some XErr.notDirectory⟩ ∧
    TarGzDir fs p tfn = ⟨[], 0, [], fs, some XErr.notDirectory⟩ := by
  have hp : ∀ fn extension, prepareCompression fs p fn extension
      = ⟨[], fs, some XErr.notDirectory⟩ := by
    intro fn extension
    unfold prepareCompression
    rw [if_pos h]
  constructor
  · unfold ZipDir
    rw [hp]
    rfl
  · unfold TarGzDir
    rw [hp]
    rfl

theorem c5_amended_not_directory_witness :
    ZipDir ⟨[(["tmp", "f.txt"], Node.file 0o644 [1])]⟩ ⟨["tmp", "f.txt"], "/tmp/f.txt"⟩ "a"
      = ⟨[], 0, [], ⟨[(["tmp", "f.txt"], Node.file 0o644 [1])]⟩, some XErr.notDirectory⟩ ∧
    TarGzDir ⟨[(["tmp", "f.txt"], Node.file 0o644 [1])]⟩ ⟨["tmp", "f.txt"], "/tmp/f.txt"⟩ "a"
      = ⟨[], 0, [], ⟨[(["tmp", "f.txt"], Node.file 0o644 [1])]⟩, some XErr.notDirectory⟩ :=
  c5_amended_not_directory ⟨[(["tmp", "f.txt"], Node.file 0o644 [1])]⟩
    ⟨["tmp", "f.txt"], "/tmp/f.txt"⟩ "a" "a" (by decide)

/-! ## Claim C7 -/

/-- C7 (counterexample): the claim fails as stated for `Unzip`.  A zip
directory entry declaring mode `0o700` is created with the fixed mode
`0o755` (`extractZipFile` calls `MkdirAll(_mode755)`), not with the
declared bits masked to `0o777`. -/
theorem c7_zip_dir_mode_counterexample :
    (extractZipFile ⟨[(["out"], Node.dir 0o755)]⟩ ["out"] ⟨"d", true, 0o700, 0, []⟩
      defaultMaxSize).err = none ∧
    (extractZipFile ⟨[(["out"], Node.dir 0o755)]⟩ ["out"] ⟨"d", true, 0o700, 0, []⟩
      defaultMaxSize).fs.lookup ["out", "d"] = some (Node.dir 0o755) ∧
    0o700 &&& 0o777 ≠ 0o755 := by
  refine ⟨?_, ?_, ?_⟩ <;> decide

/-- C7 (amended): for a directory entry at a previously absent target
whose creation succeeds, `Untar` creates the directory with the entry's
declared mode masked to the standard permission bits
(`header.Mode & 0o777`), while `Unzip` creates it with the fixed mode
`0o755` regardless of the declared bits. -/
theorem c7_amended_dir_modes (fs fz : FS) (subDir destDirZ : List String) (e : TarEntry)
    (z : ZipEntry) (maxSize maxSizeZ : Int) :
    (e.typeflag = TarType.dir →
      fsJoin subDir e.name ≠ [] →
      fs.lookup (fsJoin subDir e.name) = none →
      (fs.mkdirAll (fsJoin subDir e.name) (e.mode &&& 0o777)).2 = true →
      (untarStep fs subDir e maxSize).err = none ∧
      (untarStep fs subDir e maxSize).fs.lookup (fsJoin subDir e.name)
        = some (Node.dir (e.mode &&& 0o777))) ∧
    (z.isDir = true →
      ¬ hasPrefixStr (render destDirZ) (render (fsJoin destDirZ z.name)) = false →
      fsJoin destDirZ z.name ≠ [] →
      fz.lookup (fsJoin destDirZ z.name) = none →
      (fz.mkdirAll (fsJoin destDirZ z.name) 0o755).2 = true →
      (extractZipFile fz destDirZ z maxSizeZ).err = none ∧
      (extractZipFile fz destDirZ z maxSizeZ).fs.lookup (fsJoin destDirZ z.name)
        = some (Node.dir 0o755)) := by
  constructor
  · intro hflag hne hnone hok
    have hok' : ¬ (fs.mkdirAll (fsJoin subDir e.name) (e.mode &&& 0o777)).2 = false := by
      rw [hok]; decide
    have hstep : untarStep fs subDir e maxSize =
        ⟨(fs.mkdirAll (fsJoin subDir e.name) (e.mode &&& 0o777)).1, none⟩ := by
      unfold untarStep
      rw [hflag]
      simp only [if_neg hok']
    rw [hstep]
    refine ⟨rfl, ?_⟩
    exact FS.mkdirAllAux_create _ _ _ _ hok hnone (self_mem_prefixesOf _ hne)
  · intro hdir hg hne hnone hok
    have hok' : ¬ (fz.mkdirAll (fsJoin destDirZ z.name) 0o755).2 = false := by
      rw [hok]; decide
    have hstep : extractZipFile fz destDirZ z maxSizeZ =
        ⟨(fz.mkdirAll (fsJoin destDirZ z.name) 0o755).1, none⟩ := by
      unfold extractZipFile
      rw [if_neg hg, hdir]
      simp only [if_pos, if_neg hok']
    rw [hstep]
    refine ⟨rfl, ?_⟩
    exact FS.mkdirAllAux_create _ _ _ _ hok hnone (self_mem_prefixesOf _ hne)

theorem c7_amended_dir_modes_witness :
    (untarStep ⟨[]⟩ ["out"] ⟨"d", TarType.dir, 0o700, 0, []⟩ 100).err = none ∧
    (untarStep ⟨[]⟩ ["out"] ⟨"d", TarType.dir, 0o700, 0, []⟩ 100).fs.lookup ["out", "d"]
      = some (Node.dir (0o700 &&& 0o777)) ∧
    (extractZipFile ⟨[]⟩ ["out"] ⟨"d", true, 0o700, 0, []⟩ 100).err = none ∧
    (extractZipFile ⟨[]⟩ ["out"] ⟨"d", true, 0o700, 0, []⟩ 100).fs.lookup ["out", "d"]
      = some (Node.dir 0o755) := by
  have h := c7_amended_dir_modes ⟨[]⟩ ⟨[]⟩ ["out"] ["out"] ⟨"d", TarType.dir, 0o700, 0, []⟩
    ⟨"d", true, 0o700, 0, []⟩ 100 100
  have h1 := h.1 (by decide) (by decide) (by decide) (by decide)
  have h2 := h.2 (by decide) (by decide) (by decide) (by decide) (by decide)
  exact ⟨h1.1, h1.2, h2.1, h2.2⟩

/-! ## Claim C8 -/

/-- C8: on successful compression the archive path handle is the source
directory's parent joined with the archive file name, where the format
suffix (`".zip"` / `".tar.gz"`) is appended exactly when the given name
does not already end with it.  Hypothesis: the archive file name contains
no `'/'` (it is a file name, not a path). -/
theorem c8_archive_path (fs : FS) (p : FsPathM) (zfn tfn : String)
    (hz : '/' ∉ zfn.data) (ht : '/' ∉ tfn.data) :
    ((ZipDir fs p zfn).err = none →
      (ZipDir fs p zfn).archivePath =
        p.absPath.dropLast ++ [if endsWithStr zfn ".zip" then zfn else zfn ++ ".zip"]) ∧
    ((TarGzDir fs p tfn).err = none →
      (TarGzDir fs p tfn).archivePath =
        p.absPath.dropLast ++ [if endsWithStr tfn ".tar.gz" then tfn else tfn ++ ".tar.gz"]) := by
  have hprep : ∀ fn extension, '/' ∉ fn.data → 3 ≤ extension.data.length →
      '/' ∉ extension.data →
      (prepareCompression fs p fn extension).err = none →
      (prepareCompression fs p fn extension).archivePath
        = p.absPath.dropLast ++ [withExtension fn extension] := by
    intro fn extension hfn hlen hext herr
    unfold prepareCompression at herr ⊢
    by_cases h1 : isDirB fs p = false
    · rw [if_pos h1] at herr
      simp at herr
    · rw [if_neg h1] at herr ⊢
      by_cases h2 : (fs.createFile
          (fsJoin p.absPath.dropLast (withExtension fn extension))).2 = false
      · rw [if_pos h2] at herr
        simp at herr
      · rw [if_neg h2]
        exact fsJoin_single _ (withExtension_wf fn extension hfn hext hlen) _
  constructor
  · intro herr
    unfold ZipDir at herr ⊢
    by_cases hc : (prepareCompression fs p zfn ".zip").err = none
    · rw [if_pos hc]
      exact hprep zfn ".zip" hz (by decide) (by decide) hc
    · rw [if_neg hc] at herr
      exact absurd herr hc
  · intro herr
    unfold TarGzDir at herr ⊢
    by_cases hc : (prepareCompression fs p tfn ".tar.gz").err = none
    · rw [if_pos hc]
      exact hprep tfn ".tar.gz" ht (by decide) (by decide) hc
    · rw [if_neg hc] at herr
      exact absurd herr hc

theorem c8_archive_path_witness :
    (ZipDir ⟨[(["tmp", "src"], Node.dir 0o755)]⟩ ⟨["tmp", "src"], "/tmp/src"⟩ "arch").archivePath
      = ["tmp", "arch.zip"] ∧
    (TarGzDir ⟨[(["tmp", "src"], Node.dir 0o755)]⟩ ⟨["tmp", "src"], "/tmp/src"⟩
        "arch.tar.gz").archivePath = ["tmp", "arch.tar.gz"] := by
  have h := c8_archive_path ⟨[(["tmp", "src"], Node.dir 0o755)]⟩ ⟨["tmp", "src"], "/tmp/src"⟩
    "arch" "arch.tar.gz" (by decide) (by decide)
  exact ⟨by rw [h.1 (by decide)]; decide, by rw [h.2 (by decide)]; decide⟩

end Pathlib

namespace Pathlib

/-! ## Walk and counting lemmas -/

theorem insertLex_perm (x : List String) (l : List (List String)) :
    (insertLex x l).Perm (x :: l) := by
  induction l with
  | nil => simp [insertLex]
  | cons y rest ih =>
      unfold insertLex
      by_cases h : lexLe x y = true
      · rw [if_pos h]
      · rw [if_neg h]
        exact (List.Perm.cons y ih).trans (List.Perm.swap x y rest)

theorem sortLex_perm (l : List (List String)) : (sortLex l).Perm l := by
  induction l with
  | nil => simp [sortLex]
  | cons x rest ih =>
      unfold sortLex
      rw [List.foldr_cons]
      exact (insertLex_perm x (sortLex rest)).trans (List.Perm.cons x ih)

theorem compressStep_dir (acc : Nat × List (String × Nat × List Nat)) (e : WalkEntry)
    (h : e.isDir = true) : compressStep acc e = acc := by
  unfold compressStep
  rw [if_pos h]

theorem compressStep_file (acc : Nat × List (String × Nat × List Nat)) (e : WalkEntry)
    (h : e.isDir = false) :
    compressStep acc e = (acc.1 + 1, acc.2 ++ [(e.relPath, e.mode, e.content)]) := by
  unfold compressStep
  rw [if_neg (by rw [h]; decide)]

theorem compress_count_foldl (es : List WalkEntry) :
    ∀ n l, (es.foldl compressStep (n, l)).1 = n + es.countP (fun e => e.isDir = false) := by
  induction es with
  | nil => intro n l; simp
  | cons e rest ih =>
      intro n l
      rw [List.foldl_cons, List.countP_cons]
      cases hb : e.isDir
      · rw [compressStep_file (n, l) e hb]
        rw [ih (n + 1) _]
        simp [hb]
        omega
      · rw [compressStep_dir (n, l) e hb]
        rw [ih n l]
        simp [hb]

theorem compress_entries_foldl (es : List WalkEntry) :
    ∀ n l, (es.foldl compressStep (n, l)).2 =
      l ++ (es.filter (fun e => e.isDir = false)).map
        (fun e => (e.relPath, e.mode, e.content)) := by
  induction es with
  | nil => intro n l; simp
  | cons e rest ih =>
      intro n l
      rw [List.foldl_cons]
      cases hb : e.isDir
      · rw [compressStep_file (n, l) e hb]
        rw [ih (n + 1) _]
        rw [List.filter_cons_of_pos (by simp [hb])]
        simp
      · rw [compressStep_dir (n, l) e hb]
        rw [ih n l]
        rw [List.filter_cons_of_neg (by simp [hb])]

theorem FS.lookup_head (e : List String × Node) (tl : List (List String × Node)) :
    FS.lookup ⟨e :: tl⟩ e.1 = some e.2 := by
  simp [FS.lookup, List.find?]

theorem FS.countP_entries (fs : FS) (hnd : (fs.entries.map Prod.fst).Nodup)
    (pr : List String → Option Node → Bool) :
    (fs.entries.map Prod.fst).countP (fun q => pr q (fs.lookup q))
      = fs.entries.countP (fun e => pr e.1 (some e.2)) := by
  obtain ⟨l⟩ := fs
  induction l with
  | nil => simp
  | cons e tl ih =>
      rw [List.map_cons, List.nodup_cons] at hnd
      rw [List.map_cons, List.countP_cons, List.countP_cons]
      have hhead : pr e.1 (FS.lookup ⟨e :: tl⟩ e.1) = pr e.1 (some e.2) := by
        rw [FS.lookup_head]
      rw [hhead]
      have htail : (List.map Prod.fst tl).countP
            (fun q => pr q (FS.lookup ⟨e :: tl⟩ q))
          = (List.map Prod.fst tl).countP (fun q => pr q (FS.lookup ⟨tl⟩ q)) := by
        apply List.countP_congr
        intro q hq
        have hne : q ≠ e.1 := by
          intro hh
          subst hh
          exact hnd.1 hq
        rw [FS.lookup_cons e tl q hne]
      rw [htail]
      exact congrArg (fun z => z + if pr e.1 (some e.2) = true then 1 else 0) (ih hnd.2)

theorem dropLast_append_not_under (root : List String) (c : String) (hne : root ≠ [])
    (hc : root.dropLast ++ [c] ≠ root) : ¬ root <+: root.dropLast ++ [c] := by
  intro hp
  obtain ⟨t, ht⟩ := hp
  have hlen : root.length = root.dropLast.length + 1 := by
    cases root with
    | nil => exact absurd rfl hne
    | cons a l => simp
  have hlen2 : (root.dropLast ++ [c]).length = root.dropLast.length + 1 := by simp
  have htlen : t.length = 0 := by
    have := congrArg List.length ht
    simp at this
    omega
  have ht0 : t = [] := List.length_eq_zero.mp htlen
  subst ht0
  rw [List.append_nil] at ht
  exact hc ht.symm

theorem createFile_ok_set (fs : FS) (cp : List String)
    (hok : (fs.createFile cp).2 = true) :
    ∃ m', (fs.createFile cp).1 = fs.set cp (Node.file m' []) := by
  unfold FS.createFile at hok ⊢
  match hl : fs.lookup cp with
  | some (Node.dir dm) => rw [hl] at hok; simp at hok
  | some (Node.file fm fc) => exact ⟨fm, rfl⟩
  | none => exact ⟨0o666, rfl⟩

end Pathlib

namespace Pathlib

theorem nodeWalkEntry_pred (root q : List String) (o : Option Node) :
    (decide ((nodeWalkEntry root q o).isDir = false))
      = (match o with | some n => n.isFile | none => false) := by
  match o with
  | none => rfl
  | some (Node.dir m) => rfl
  | some (Node.file m c) => rfl

theorem countP_walkEntries (g : FS) (root : List String) :
    (g.walkEntries root).countP (fun e => e.isDir = false)
      = (g.entries.map Prod.fst).countP
          (fun q => (match g.lookup q with | some n => n.isFile | none => false)
            && decide (root <+: q)) := by
  unfold FS.walkEntries
  rw [List.countP_map]
  rw [(sortLex_perm _).countP_eq]
  rw [List.countP_filter]
  apply List.countP_congr
  intro q hq
  simp only [Function.comp]
  rw [nodeWalkEntry_pred]

theorem FS.countP_files_under (fs : FS) (root : List String)
    (hnd : (fs.entries.map Prod.fst).Nodup) :
    (fs.entries.map Prod.fst).countP
      (fun q => (match fs.lookup q with | some n => n.isFile | none => false)
        && decide (root <+: q))
      = numFilesUnder fs root := by
  have h := FS.countP_entries fs hnd
    (fun q o => (match o with | some n => n.isFile | none => false) && decide (root <+: q))
  refine h.trans ?_
  unfold numFilesUnder
  apply List.countP_congr
  intro e _
  cases e.2 with
  | dir m => simp [Node.isFile]
  | file m c => simp [Node.isFile]

theorem compress_count_core (fs : FS) (p : FsPathM) (fn extension : String)
    (hnd : (fs.entries.map Prod.fst).Nodup)
    (hfn : '/' ∉ fn.data) (hext : '/' ∉ extension.data) (hlen : 3 ≤ extension.data.length)
    (dm : Nat) (hroot : fs.lookup p.absPath = some (Node.dir dm))
    (hrootne : p.absPath ≠ [])
    (herr : (prepareCompression fs p fn extension).err = none) :
    (compressDirectoryToWriter (prepareCompression fs p fn extension).fs p.absPath).1
      = numFilesUnder fs p.absPath := by
  have hcp_eq : fsJoin p.absPath.dropLast (withExtension fn extension)
      = p.absPath.dropLast ++ [withExtension fn extension] :=
    fsJoin_single _ (withExtension_wf fn extension hfn hext hlen) _
  unfold prepareCompression at herr ⊢
  by_cases h1 : isDirB fs p = false
  · rw [if_pos h1] at herr
    simp at herr
  · rw [if_neg h1] at herr ⊢
    by_cases h2 : (fs.createFile
        (fsJoin p.absPath.dropLast (withExtension fn extension))).2 = false
    · rw [if_pos h2] at herr
      simp at herr
    · rw [if_neg h2]
      have hok : (fs.createFile
          (fsJoin p.absPath.dropLast (withExtension fn extension))).2 = true := by
        cases hb : (fs.createFile
            (fsJoin p.absPath.dropLast (withExtension fn extension))).2
        · exact absurd hb h2
        · rfl
      obtain ⟨m', hset⟩ := createFile_ok_set fs _ hok
      simp only [hset]
      have hcpne : fsJoin p.absPath.dropLast (withExtension fn extension) ≠ p.absPath := by
        intro hh
        unfold FS.createFile at hok
        rw [hh, hroot] at hok
        simp at hok
      have hnu : ¬ p.absPath <+: fsJoin p.absPath.dropLast (withExtension fn extension) := by
        rw [hcp_eq]
        exact dropLast_append_not_under p.absPath _ hrootne (by rw [← hcp_eq]; exact hcpne)
      unfold compressDirectoryToWriter
      rw [compress_count_foldl]
      rw [countP_walkEntries]
      have hcons : ((fs.set (fsJoin p.absPath.dropLast (withExtension fn extension))
          (Node.file m' [])).entries.map Prod.fst)
          = fsJoin p.absPath.dropLast (withExtension fn extension)
            :: fs.entries.map Prod.fst := rfl
      rw [hcons, List.countP_cons]
      have hcp0 : ((match (fs.set (fsJoin p.absPath.dropLast (withExtension fn extension))
          (Node.file m' [])).lookup (fsJoin p.absPath.dropLast (withExtension fn extension))
          with | some n => n.isFile | none => false)
          && decide (p.absPath <+: fsJoin p.absPath.dropLast (withExtension fn extension)))
          = false := by
        simp [hnu]
      rw [hcp0]
      simp only [Bool.false_eq_true, if_false, Nat.add_zero, Nat.zero_add]
      have hcongr : (fs.entries.map Prod.fst).countP
          (fun q => (match (fs.set (fsJoin p.absPath.dropLast (withExtension fn extension))
              (Node.file m' [])).lookup q with | some n => n.isFile | none => false)
            && decide (p.absPath <+: q))
          = (fs.entries.map Prod.fst).countP
            (fun q => (match fs.lookup q with | some n => n.isFile | none => false)
              && decide (p.absPath <+: q)) := by
        apply List.countP_congr
        intro q hq
        by_cases hu : p.absPath <+: q
        · have hqne : q ≠ fsJoin p.absPath.dropLast (withExtension fn extension) := by
            intro hh
            subst hh
            exact hnu hu
          rw [FS.lookup_set_ne _ _ _ _ hqne]
        · simp [hu]
      rw [hcongr]
      exact FS.countP_files_under fs p.absPath hnd

/-! ## Claim C6 -/

/-- C6: on successful compression, the returned file count equals the
number of regular files at or below the source directory (zero for an
empty directory; directories are not counted).  Hypotheses: the
filesystem's bindings have distinct paths, the source path is an existing
directory other than the filesystem root, and the archive names contain
no `'/'`. -/
theorem c6_file_count (fs : FS) (p : FsPathM) (zfn tfn : String) (dm : Nat)
    (hnd : (fs.entries.map Prod.fst).Nodup)
    (hroot : fs.lookup p.absPath = some (Node.dir dm))
    (hrootne : p.absPath ≠ [])
    (hz : '/' ∉ zfn.data) (ht : '/' ∉ tfn.data) :
    ((ZipDir fs p zfn).err = none →
      (ZipDir fs p zfn).count = numFilesUnder fs p.absPath) ∧
    ((TarGzDir fs p tfn).err = none →
      (TarGzDir fs p tfn).count = numFilesUnder fs p.absPath) := by
  constructor
  · intro herr
    unfold ZipDir at herr ⊢
    by_cases hc : (prepareCompression fs p zfn ".zip").err = none
    · rw [if_pos hc]
      exact compress_count_core fs p zfn ".zip" hnd hz (by decide) (by decide) dm hroot
        hrootne hc
    · rw [if_neg hc] at herr
      exact absurd herr hc
  · intro herr
    unfold TarGzDir at herr ⊢
    by_cases hc : (prepareCompression fs p tfn ".tar.gz").err = none
    · rw [if_pos hc]
      exact compress_count_core fs p tfn ".tar.gz" hnd ht (by decide) (by decide) dm hroot
        hrootne hc
    · rw [if_neg hc] at herr
      exact absurd herr hc

theorem c6_file_count_witness :
    (ZipDir ⟨[(["tmp", "src"], Node.dir 0o755), (["tmp"], Node.dir 0o755),
        (["tmp", "src", "a.txt"], Node.file 0o644 [104, 105]),
        (["tmp", "src", "sub"], Node.dir 0o755),
        (["tmp", "src", "sub", "b.txt"], Node.file 0o600 [119])]⟩
      ⟨["tmp", "src"], "/tmp/src"⟩ "arch").count
      = numFilesUnder ⟨[(["tmp", "src"], Node.dir 0o755), (["tmp"], Node.dir 0o755),
        (["tmp", "src", "a.txt"], Node.file 0o644 [104, 105]),
        (["tmp", "src", "sub"], Node.dir 0o755),
        (["tmp", "src", "sub", "b.txt"], Node.file 0o600 [119])]⟩ ["tmp", "src"] ∧
    (TarGzDir ⟨[(["tmp", "e"], Node.dir 0o755), (["tmp"], Node.dir 0o755)]⟩
      ⟨["tmp", "e"], "/tmp/e"⟩ "empty").count
      = numFilesUnder ⟨[(["tmp", "e"], Node.dir 0o755), (["tmp"], Node.dir 0o755)]⟩
        ["tmp", "e"] := by
  have h1 := c6_file_count ⟨[(["tmp", "src"], Node.dir 0o755), (["tmp"], Node.dir 0o755),
      (["tmp", "src", "a.txt"], Node.file 0o644 [104, 105]),
      (["tmp", "src", "sub"], Node.dir 0o755),
      (["tmp", "src", "sub", "b.txt"], Node.file 0o600 [119])]⟩
    ⟨["tmp", "src"], "/tmp/src"⟩ "arch" "arch" 0o755 (by decide) (by decide) (by decide)
    (by decide) (by decide)
  have h2 := c6_file_count ⟨[(["tmp", "e"], Node.dir 0o755), (["tmp"], Node.dir 0o755)]⟩
    ⟨["tmp", "e"], "/tmp/e"⟩ "empty" "empty" 0o755 (by decide) (by decide) (by decide)
    (by decide) (by decide)
  exact ⟨h1.1 (by decide), h2.2 (by decide)⟩

end Pathlib

namespace Pathlib

/-! ## Step-level extraction lemmas -/

theorem mem_prefixesOf_dropLast (x q : List String) (h : q ∈ prefixesOf x.dropLast) :
    q <+: x ∧ q ≠ x := by
  match x with
  | [] => simp [prefixesOf] at h
  | a :: l =>
      have h1 : q <+: (a :: l).dropLast := prefixesOf_is_prefix _ q h
      have h2 : (a :: l).dropLast <+: (a :: l) := List.dropLast_prefix _
      have hlen : q.length ≤ (a :: l).dropLast.length := prefixesOf_length_le _ q h
      refine ⟨h1.trans h2, ?_⟩
      intro hh
      subst hh
      rw [List.length_dropLast] at hlen
      simp at hlen

theorem mem_prefixesOf_of_ne_nil (x q : List String) (hp : q <+: x) (hne : q ≠ []) :
    q ∈ prefixesOf x := by
  rw [prefixesOf_mem_iff]
  refine ⟨q.length - 1, ?_, ?_⟩
  · have h1 : q.length ≤ x.length := hp.length_le
    have h2 : 1 ≤ q.length := by
      cases q with
      | nil => exact absurd rfl hne
      | cons a l => simp
    omega
  · have h2 : 1 ≤ q.length := by
      cases q with
      | nil => exact absurd rfl hne
      | cons a l => simp
    have h3 : q.length - 1 + 1 = q.length := by omega
    rw [h3]
    obtain ⟨t, rfl⟩ := hp
    rw [List.take_left]

theorem nil_not_mem_prefixesOf (l : List String) : [] ∉ prefixesOf l := by
  intro h
  rw [prefixesOf_mem_iff] at h
  obtain ⟨i, hi, hq⟩ := h
  have hne : l.take (i + 1) ≠ [] := by
    intro hh
    rw [List.take_eq_nil_iff] at hh
    rcases hh with hh | hh
    · omega
    · subst hh
      simp at hi
  exact hne hq.symm

theorem FS.mem_of_lookup (fs : FS) (q : List String) (n : Node)
    (h : fs.lookup q = some n) : (q, n) ∈ fs.entries := by
  unfold FS.lookup at h
  match hf : fs.entries.find? (fun e => decide (e.1 = q)) with
  | none => rw [hf] at h; simp at h
  | some e =>
      rw [hf] at h
      simp at h
      have h1 := List.mem_of_find?_eq_some hf
      have h2 := List.find?_some hf
      simp at h2
      have : e = (q, n) := by
        obtain ⟨e1, e2⟩ := e
        simp at h2 h
        rw [h2, h]
      rw [← this]
      exact h1

theorem FS.lookup_none_of_no_key (fs : FS) (q : List String)
    (h : ∀ e ∈ fs.entries, e.1 ≠ q) : fs.lookup q = none := by
  match hf : fs.lookup q with
  | none => rfl
  | some n => exact absurd rfl (h (q, n) (FS.mem_of_lookup fs q n hf))

theorem openWrite_fresh (fs : FS) (t : List String) (perm : Nat) (tr : Bool)
    (bytes : List Nat) (h : fs.lookup t = none) :
    fs.openWrite t perm tr bytes = (fs.set t (Node.file perm bytes), true) := by
  unfold FS.openWrite
  rw [h]

theorem extractTarFile_fresh_ok (fs : FS) (t : List String) (e : TarEntry) (maxSize : Int)
    (hsize : e.size = (e.data.length : Int)) (hmax : e.size ≤ maxSize)
    (hnone : fs.lookup t = none) :
    extractTarFile fs t e maxSize
      = ⟨fs.set t (Node.file (e.mode &&& 0o777) e.data), none⟩ := by
  have hsz : ¬ e.size > maxSize := by omega
  have hkn : e.size.toNat = e.data.length := by omega
  have htake : e.data.take e.size.toNat = e.data := by
    rw [hkn]
    simp
  have hw := openWrite_fresh fs t (e.mode &&& 0o777) false (e.data.take e.size.toNat) hnone
  rw [htake] at hw
  have hw2 : ¬ (fs.openWrite t (e.mode &&& 0o777) false (e.data.take e.size.toNat)).2
      = false := by
    rw [htake, hw]
    simp
  have hmin : ((min e.size.toNat e.data.length : Nat) : Int) = e.size := by omega
  unfold extractTarFile
  rw [if_neg hsz, if_neg hw2, if_pos hmin, htake, hw]

theorem extractZipFile_fresh_ok (fs : FS) (subDir : List String) (e : ZipEntry)
    (maxSize : Int)
    (hdir : e.isDir = false)
    (hsize : e.size = e.data.length)
    (hmax : (e.size : Int) ≤ maxSize) (hms : maxSize < 2 ^ 63)
    (hext : subDir <+: fsJoin subDir e.name)
    (hnone : fs.lookup (fsJoin subDir e.name) = none)
    (hclean : ∀ q, q <+: fsJoin subDir e.name → q ≠ fsJoin subDir e.name → q ≠ [] →
      ∀ mm cc, fs.lookup q ≠ some (Node.file mm cc)) :
    extractZipFile fs subDir e maxSize
      = ⟨((fs.mkParentDir (fsJoin subDir e.name)).1).set (fsJoin subDir e.name)
          (Node.file e.mode e.data), none⟩ := by
  have h0 : 0 ≤ maxSize := le_trans (by positivity) hmax
  have hguard : ¬ hasPrefixStr (render subDir) (render (fsJoin subDir e.name)) = false := by
    obtain ⟨t, ht⟩ := hext
    rw [← ht]
    rw [render_hasPrefix_append]
    decide
  have hdir' : ¬ e.isDir = true := by rw [hdir]; decide
  have hcast : ¬ e.size > uint64OfInt maxSize := by
    have hlt : maxSize < (2 : Int) ^ 64 := by
      have h2 : (2 : Int) ^ 63 < 2 ^ 64 := by norm_num
      omega
    have hmod : maxSize % (2 : Int) ^ 64 = maxSize := Int.emod_eq_of_lt h0 hlt
    unfold uint64OfInt
    rw [hmod]
    omega
  have hpdok : (fs.mkParentDir (fsJoin subDir e.name)).2 = true := by
    unfold FS.mkParentDir FS.mkdirAll
    apply FS.mkdirAllAux_ok_of_nofile
    intro q hq mm cc
    obtain ⟨hq1, hq2⟩ := mem_prefixesOf_dropLast _ q hq
    have hq3 : q ≠ [] := by
      intro hh
      subst hh
      exact nil_not_mem_prefixesOf _ hq
    exact hclean q hq1 hq2 hq3 mm cc
  have hpd' : ¬ (fs.mkParentDir (fsJoin subDir e.name)).2 = false := by
    rw [hpdok]; decide
  have hnone1 : ((fs.mkParentDir (fsJoin subDir e.name)).1).lookup (fsJoin subDir e.name)
      = none := by
    unfold FS.mkParentDir FS.mkdirAll
    rw [FS.mkdirAllAux_untouched]
    · exact hnone
    · intro hmem
      exact (mem_prefixesOf_dropLast _ _ hmem).2 rfl
  have htake : e.data.take maxSize.toNat = e.data := by
    apply List.take_of_length_le
    omega
  have hw := openWrite_fresh ((fs.mkParentDir (fsJoin subDir e.name)).1)
    (fsJoin subDir e.name) e.mode true (e.data.take maxSize.toNat) hnone1
  rw [htake] at hw
  have hw2 : ¬ (((fs.mkParentDir (fsJoin subDir e.name)).1).openWrite (fsJoin subDir e.name)
      e.mode true (e.data.take maxSize.toNat)).2 = false := by
    rw [htake, hw]
    simp
  have hmin : ((min e.data.length maxSize.toNat : Nat) : Int) = (e.size : Int) := by omega
  unfold extractZipFile
  rw [if_neg hguard, if_neg hdir', if_neg hcast, if_neg hpd', if_neg hw2, if_pos hmin,
    htake, hw]

end Pathlib

namespace Pathlib

/-! ## Loop-level extraction lemmas -/

theorem untarLoop_writes (subDir : List String) (maxSize : Int) (es : List TarEntry) :
    ∀ fs : FS,
    (∀ e ∈ es, e.typeflag = TarType.reg ∧ e.size = (e.data.length : Int) ∧
      e.size ≤ maxSize ∧ subDir <+: fsJoin subDir e.name ∧ subDir ≠ fsJoin subDir e.name) →
    (∀ e ∈ es, fs.lookup (fsJoin subDir e.name) = none) →
    (∀ e ∈ es, ∀ q, q <+: fsJoin subDir e.name → q ≠ fsJoin subDir e.name → q ≠ [] →
      ∀ mm cc, fs.lookup q ≠ some (Node.file mm cc)) →
    es.Pairwise (fun a b => ¬ fsJoin subDir a.name <+: fsJoin subDir b.name ∧
      ¬ fsJoin subDir b.name <+: fsJoin subDir a.name) →
    (untarLoop fs subDir es maxSize).err = none ∧
    (∀ e ∈ es, (untarLoop fs subDir es maxSize).fs.lookup (fsJoin subDir e.name)
      = some (Node.file (e.mode &&& 0o777) e.data)) ∧
    (∀ r n, fs.lookup r = some n →
      (∀ e ∈ es, r ≠ fsJoin subDir e.name ∧ ¬ r <+: fsJoin subDir e.name) →
      (untarLoop fs subDir es maxSize).fs.lookup r = some n) := by
  induction es with
  | nil =>
      intro fs _ _ _ _
      exact ⟨rfl, by simp, fun r n h _ => h⟩
  | cons e rest ih =>
      intro fs hstat hnone hclean hpw
      obtain ⟨hflag, hsize, hmax, hpre, hprene⟩ := hstat e (List.mem_cons_self e rest)
      obtain ⟨hpwhead, hpwtail⟩ := List.pairwise_cons.mp hpw
      have hclean0 := hclean e (List.mem_cons_self e rest)
      have hnone0 := hnone e (List.mem_cons_self e rest)
      have hpdok : (fs.mkParentDir (fsJoin subDir e.name)).2 = true := by
        unfold FS.mkParentDir FS.mkdirAll
        apply FS.mkdirAllAux_ok_of_nofile
        intro q hq mm cc
        obtain ⟨hq1, hq2⟩ := mem_prefixesOf_dropLast _ q hq
        have hq3 : q ≠ [] := by
          intro hh
          subst hh
          exact nil_not_mem_prefixesOf _ hq
        exact hclean0 q hq1 hq2 hq3 mm cc
      have hpd' : ¬ (fs.mkParentDir (fsJoin subDir e.name)).2 = false := by
        rw [hpdok]; simp
      have hnone1 : ((fs.mkParentDir (fsJoin subDir e.name)).1).lookup (fsJoin subDir e.name)
          = none := by
        unfold FS.mkParentDir FS.mkdirAll
        rw [FS.mkdirAllAux_untouched]
        · exact hnone0
        · intro hmem
          exact (mem_prefixesOf_dropLast _ _ hmem).2 rfl
      have hstep : untarStep fs subDir e maxSize =
          ⟨((fs.mkParentDir (fsJoin subDir e.name)).1).set (fsJoin subDir e.name)
            (Node.file (e.mode &&& 0o777) e.data), none⟩ := by
        unfold untarStep
        rw [hflag]
        rw [if_neg hpd']
        exact extractTarFile_fresh_ok _ _ e maxSize hsize hmax hnone1
      have hloop : untarLoop fs subDir (e :: rest) maxSize =
          untarLoop (((fs.mkParentDir (fsJoin subDir e.name)).1).set (fsJoin subDir e.name)
            (Node.file (e.mode &&& 0o777) e.data)) subDir rest maxSize := by
        rw [untarLoop_cons, hstep]
        simp
      -- the filesystem after the head step
      have hf2pres : ∀ r n, fs.lookup r = some n → r ≠ fsJoin subDir e.name →
          (((fs.mkParentDir (fsJoin subDir e.name)).1).set (fsJoin subDir e.name)
            (Node.file (e.mode &&& 0o777) e.data)).lookup r = some n := by
        intro r n hr hrne
        rw [FS.lookup_set_ne _ _ _ _ hrne]
        exact FS.mkdirAllAux_pres _ _ _ r n hr
      have hf2none : ∀ r, fs.lookup r = none → r ≠ fsJoin subDir e.name →
          ¬ r <+: fsJoin subDir e.name →
          (((fs.mkParentDir (fsJoin subDir e.name)).1).set (fsJoin subDir e.name)
            (Node.file (e.mode &&& 0o777) e.data)).lookup r = none := by
        intro r hr hrne hrpre
        rw [FS.lookup_set_ne _ _ _ _ hrne]
        unfold FS.mkParentDir FS.mkdirAll
        rw [FS.mkdirAllAux_untouched]
        · exact hr
        · intro hmem
          exact hrpre (mem_prefixesOf_dropLast _ _ hmem).1
      have hrel : ∀ r ∈ rest, ¬ fsJoin subDir e.name <+: fsJoin subDir r.name ∧
          ¬ fsJoin subDir r.name <+: fsJoin subDir e.name := hpwhead
      have ihh := ih (((fs.mkParentDir (fsJoin subDir e.name)).1).set (fsJoin subDir e.name)
          (Node.file (e.mode &&& 0o777) e.data))
        (fun r hr => hstat r (List.mem_cons_of_mem e hr))
        (by
          intro r hr
          have hne : fsJoin subDir r.name ≠ fsJoin subDir e.name := by
            intro hh
            exact (hrel r hr).1 (hh ▸ List.prefix_refl _)
          exact hf2none _ (hnone r (List.mem_cons_of_mem e hr)) hne
            (fun hp => (hrel r hr).2 hp))
        (by
          intro r hr q hq1 hq2 hq3 mm cc hcontra
          have hqne : q ≠ fsJoin subDir e.name := by
            intro hh
            subst hh
            exact (hrel r hr).1 hq1
          rw [FS.lookup_set_ne _ _ _ _ hqne] at hcontra
          unfold FS.mkParentDir FS.mkdirAll at hcontra
          rw [FS.mkdirAllAux_files] at hcontra
          exact hclean r (List.mem_cons_of_mem e hr) q hq1 hq2 hq3 mm cc hcontra)
        hpwtail
      refine ⟨?_, ?_, ?_⟩
      · rw [hloop]
        exact ihh.1
      · intro e' he'
        rcases List.mem_cons.mp he' with h1 | h1
        · subst h1
          rw [hloop]
          apply ihh.2.2
          · exact FS.lookup_set_self _ _ _
          · intro r hr
            refine ⟨?_, fun hp => (hrel r hr).1 hp⟩
            intro hh
            exact (hrel r hr).1 (hh ▸ List.prefix_refl _)
        · rw [hloop]
          exact ihh.2.1 e' h1
      · intro r n hr hcond
        rw [hloop]
        apply ihh.2.2
        · exact hf2pres r n hr (hcond e (List.mem_cons_self e rest)).1
        · intro e' he'
          exact hcond e' (List.mem_cons_of_mem e he')

end Pathlib

namespace Pathlib

theorem zipLoop_writes (subDir : List String) (maxSize : Int) (hms : maxSize < 2 ^ 63)
    (es : List ZipEntry) :
    ∀ fs : FS,
    (∀ e ∈ es, e.isDir = false ∧ e.size = e.data.length ∧
      (e.size : Int) ≤ maxSize ∧ subDir <+: fsJoin subDir e.name ∧
      subDir ≠ fsJoin subDir e.name) →
    (∀ e ∈ es, fs.lookup (fsJoin subDir e.name) = none) →
    (∀ e ∈ es, ∀ q, q <+: fsJoin subDir e.name → q ≠ fsJoin subDir e.name → q ≠ [] →
      ∀ mm cc, fs.lookup q ≠ some (Node.file mm cc)) →
    es.Pairwise (fun a b => ¬ fsJoin subDir a.name <+: fsJoin subDir b.name ∧
      ¬ fsJoin subDir b.name <+: fsJoin subDir a.name) →
    (zipLoop fs subDir es maxSize).err = none ∧
    (∀ e ∈ es, (zipLoop fs subDir es maxSize).fs.lookup (fsJoin subDir e.name)
      = some (Node.file e.mode e.data)) ∧
    (∀ r n, fs.lookup r = some n →
      (∀ e ∈ es, r ≠ fsJoin subDir e.name ∧ ¬ r <+: fsJoin subDir e.name) →
      (zipLoop fs subDir es maxSize).fs.lookup r = some n) := by
  induction es with
  | nil =>
      intro fs _ _ _ _
      exact ⟨rfl, by simp, fun r n h _ => h⟩
  | cons e rest ih =>
      intro fs hstat hnone hclean hpw
      obtain ⟨hdir, hsize, hmax, hpre, hprene⟩ := hstat e (List.mem_cons_self e rest)
      obtain ⟨hpwhead, hpwtail⟩ := List.pairwise_cons.mp hpw
      have hclean0 := hclean e (List.mem_cons_self e rest)
      have hnone0 := hnone e (List.mem_cons_self e rest)
      have hstep : extractZipFile fs subDir e maxSize =
          ⟨((fs.mkParentDir (fsJoin subDir e.name)).1).set (fsJoin subDir e.name)
            (Node.file e.mode e.data), none⟩ :=
        extractZipFile_fresh_ok fs subDir e maxSize hdir hsize hmax hms hpre hnone0 hclean0
      have hloop : zipLoop fs subDir (e :: rest) maxSize =
          zipLoop (((fs.mkParentDir (fsJoin subDir e.name)).1).set (fsJoin subDir e.name)
            (Node.file e.mode e.data)) subDir rest maxSize := by
        rw [zipLoop_cons, hstep]
        simp
      have hf2pres : ∀ r n, fs.lookup r = some n → r ≠ fsJoin subDir e.name →
          (((fs.mkParentDir (fsJoin subDir e.name)).1).set (fsJoin subDir e.name)
            (Node.file e.mode e.data)).lookup r = some n := by
        intro r n hr hrne
        rw [FS.lookup_set_ne _ _ _ _ hrne]
        exact FS.mkdirAllAux_pres _ _ _ r n hr
      have hf2none : ∀ r, fs.lookup r = none → r ≠ fsJoin subDir e.name →
          ¬ r <+: fsJoin subDir e.name →
          (((fs.mkParentDir (fsJoin subDir e.name)).1).set (fsJoin subDir e.name)
            (Node.file e.mode e.data)).lookup r = none := by
        intro r hr hrne hrpre
        rw [FS.lookup_set_ne _ _ _ _ hrne]
        unfold FS.mkParentDir FS.mkdirAll
        rw [FS.mkdirAllAux_untouched]
        · exact hr
        · intro hmem
          exact hrpre (mem_prefixesOf_dropLast _ _ hmem).1
      have hrel : ∀ r ∈ rest, ¬ fsJoin subDir e.name <+: fsJoin subDir r.name ∧
          ¬ fsJoin subDir r.name <+: fsJoin subDir e.name := hpwhead
      have ihh := ih (((fs.mkParentDir (fsJoin subDir e.name)).1).set (fsJoin subDir e.name)
          (Node.file e.mode e.data))
        (fun r hr => hstat r (List.mem_cons_of_mem e hr))
        (by
          intro r hr
          have hne : fsJoin subDir r.name ≠ fsJoin subDir e.name := by
            intro hh
            exact (hrel r hr).1 (hh ▸ List.prefix_refl _)
          exact hf2none _ (hnone r (List.mem_cons_of_mem e hr)) hne
            (fun hp => (hrel r hr).2 hp))
        (by
          intro r hr q hq1 hq2 hq3 mm cc hcontra
          have hqne : q ≠ fsJoin subDir e.name := by
            intro hh
            subst hh
            exact (hrel r hr).1 hq1
          rw [FS.lookup_set_ne _ _ _ _ hqne] at hcontra
          unfold FS.mkParentDir FS.mkdirAll at hcontra
          rw [FS.mkdirAllAux_files] at hcontra
          exact hclean r (List.mem_cons_of_mem e hr) q hq1 hq2 hq3 mm cc hcontra)
        hpwtail
      refine ⟨?_, ?_, ?_⟩
      · rw [hloop]
        exact ihh.1
      · intro e' he'
        rcases List.mem_cons.mp he' with h1 | h1
        · subst h1
          rw [hloop]
          apply ihh.2.2
          · exact FS.lookup_set_self _ _ _
          · intro r hr
            refine ⟨?_, fun hp => (hrel r hr).1 hp⟩
            intro hh
            exact (hrel r hr).1 (hh ▸ List.prefix_refl _)
        · rw [hloop]
          exact ihh.2.1 e' h1
      · intro r n hr hcond
        rw [hloop]
        apply ihh.2.2
        · exact hf2pres r n hr (hcond e (List.mem_cons_self e rest)).1
        · intro e' he'
          exact hcond e' (List.mem_cons_of_mem e he')

end Pathlib

namespace Pathlib

/-! ## Compression-side characterization -/

theorem prep_ok_analysis (fs : FS) (p : FsPathM) (fn extension : String)
    (hfn : '/' ∉ fn.data) (hext : '/' ∉ extension.data) (hlen : 3 ≤ extension.data.length)
    (dm : Nat) (hroot : fs.lookup p.absPath = some (Node.dir dm))
    (hrootne : p.absPath ≠ [])
    (herr : (prepareCompression fs p fn extension).err = none) :
    ∃ m', (prepareCompression fs p fn extension).fs
        = fs.set (fsJoin p.absPath.dropLast (withExtension fn extension))
            (Node.file m' []) ∧
      ¬ p.absPath <+: fsJoin p.absPath.dropLast (withExtension fn extension) := by
  have hcp_eq : fsJoin p.absPath.dropLast (withExtension fn extension)
      = p.absPath.dropLast ++ [withExtension fn extension] :=
    fsJoin_single _ (withExtension_wf fn extension hfn hext hlen) _
  unfold prepareCompression at herr ⊢
  by_cases h1 : isDirB fs p = false
  · rw [if_pos h1] at herr
    simp at herr
  · rw [if_neg h1] at herr ⊢
    by_cases h2 : (fs.createFile
        (fsJoin p.absPath.dropLast (withExtension fn extension))).2 = false
    · rw [if_pos h2] at herr
      simp at herr
    · rw [if_neg h2]
      have hok : (fs.createFile
          (fsJoin p.absPath.dropLast (withExtension fn extension))).2 = true := by
        cases hb : (fs.createFile
            (fsJoin p.absPath.dropLast (withExtension fn extension))).2
        · exact absurd hb h2
        · rfl
      obtain ⟨m', hset⟩ := createFile_ok_set fs _ hok
      refine ⟨m', hset, ?_⟩
      have hcpne : fsJoin p.absPath.dropLast (withExtension fn extension) ≠ p.absPath := by
        intro hh
        unfold FS.createFile at hok
        rw [hh, hroot] at hok
        simp at hok
      rw [hcp_eq]
      exact dropLast_append_not_under p.absPath _ hrootne (by rw [← hcp_eq]; exact hcpne)

theorem compress_entries_src (fs : FS) (root cp : List String) (m' : Nat)
    (hnd : (fs.entries.map Prod.fst).Nodup)
    (hnu : ¬ root <+: cp) (x : String × Nat × List Nat)
    (hx : x ∈ (compressDirectoryToWriter (fs.set cp (Node.file m' [])) root).2) :
    ∃ r mm cc, (r, Node.file mm cc) ∈ fs.entries ∧ root <+: r ∧
      fs.lookup r = some (Node.file mm cc) ∧ x = (relPathOf root r, mm, cc) := by
  unfold compressDirectoryToWriter at hx
  rw [compress_entries_foldl, List.nil_append] at hx
  obtain ⟨we, hwe, hproj⟩ := List.mem_map.mp hx
  obtain ⟨hwe1, hpd⟩ := List.mem_filter.mp hwe
  unfold FS.walkEntries at hwe1
  obtain ⟨q, hqsort, hentry⟩ := List.mem_map.mp hwe1
  have hqK := (sortLex_perm _).mem_iff.mp hqsort
  obtain ⟨hqkeys, hqunder⟩ := List.mem_filter.mp hqK
  have hunder : root <+: q := by simpa using hqunder
  have hqfs : q ∈ fs.entries.map Prod.fst := by
    have : (fs.set cp (Node.file m' [])).entries.map Prod.fst
        = cp :: fs.entries.map Prod.fst := rfl
    rw [this] at hqkeys
    rcases List.mem_cons.mp hqkeys with h1 | h1
    · subst h1
      exact absurd hunder hnu
    · exact h1
  obtain ⟨en, hen, henq⟩ := List.mem_map.mp hqfs
  obtain ⟨q', n⟩ := en
  simp only at henq
  subst henq
  have hlq : fs.lookup q' = some n := FS.lookup_of_mem_nodup fs q' n hnd hen
  have hqcp : q' ≠ cp := by
    intro hh
    subst hh
    exact hnu hunder
  have hlq1 : (fs.set cp (Node.file m' [])).lookup q' = some n := by
    rw [FS.lookup_set_ne _ _ _ _ hqcp]
    exact hlq
  rw [hlq1] at hentry
  match n, hlq with
  | Node.dir nm, hlq =>
      rw [← hentry] at hpd
      simp [nodeWalkEntry] at hpd
  | Node.file nm nc, hlq =>
      refine ⟨q', nm, nc, hen, hunder, hlq, ?_⟩
      rw [← hproj, ← hentry]
      rfl

theorem compress_entries_has (fs : FS) (root cp : List String) (m' : Nat)
    (hnd : (fs.entries.map Prod.fst).Nodup)
    (hnu : ¬ root <+: cp) (r : List String) (mm : Nat) (cc : List Nat)
    (hmem : (r, Node.file mm cc) ∈ fs.entries) (hunder : root <+: r) :
    (relPathOf root r, mm, cc)
      ∈ (compressDirectoryToWriter (fs.set cp (Node.file m' [])) root).2 := by
  unfold compressDirectoryToWriter
  rw [compress_entries_foldl, List.nil_append]
  have hrcp : r ≠ cp := by
    intro hh
    subst hh
    exact hnu hunder
  have hlr : (fs.set cp (Node.file m' [])).lookup r = some (Node.file mm cc) := by
    rw [FS.lookup_set_ne _ _ _ _ hrcp]
    exact FS.lookup_of_mem_nodup fs r _ hnd hmem
  have hrK : r ∈ ((fs.set cp (Node.file m' [])).entries.map Prod.fst).filter
      (fun q => decide (root <+: q)) := by
    apply List.mem_filter.mpr
    refine ⟨?_, by simpa using hunder⟩
    have : (fs.set cp (Node.file m' [])).entries.map Prod.fst
        = cp :: fs.entries.map Prod.fst := rfl
    rw [this]
    exact List.mem_cons_of_mem cp (List.mem_map.mpr ⟨(r, Node.file mm cc), hmem, rfl⟩)
  have hrsort : r ∈ sortLex (((fs.set cp (Node.file m' [])).entries.map Prod.fst).filter
      (fun q => decide (root <+: q))) := (sortLex_perm _).mem_iff.mpr hrK
  apply List.mem_map.mpr
  refine ⟨⟨relPathOf root r, false, mm, cc⟩, ?_, rfl⟩
  apply List.mem_filter.mpr
  constructor
  · unfold FS.walkEntries
    apply List.mem_map.mpr
    refine ⟨r, hrsort, ?_⟩
    rw [hlr]
    rfl
  · simp

theorem file_target_eq (root r subDir : List String)
    (hwf : wfPath r) (hunder : root <+: r) (hne : r ≠ root) :
    r.drop root.length ≠ [] ∧
    fsJoin subDir (relPathOf root r) = subDir ++ r.drop root.length := by
  have h1 : relPathOf root r = intercalateSlash (r.drop root.length) := by
    unfold relPathOf
    rw [if_neg hne]
  obtain ⟨t, rfl⟩ := hunder
  have hdrop : (root ++ t).drop root.length = t := by
    rw [List.drop_left]
  have ht : t ≠ [] := by
    intro hh
    subst hh
    simp at hne
  have hwt : wfPath t := fun c hc => hwf c (List.mem_append_right root hc)
  rw [hdrop, h1, hdrop]
  exact ⟨ht, fsJoin_rel t ht hwt subDir⟩

end Pathlib

namespace Pathlib

theorem relPath_inj (root q1 q2 : List String)
    (h1 : root <+: q1) (h2 : root <+: q2) (hne1 : q1 ≠ root) (hne2 : q2 ≠ root)
    (hw1 : wfPath q1) (hw2 : wfPath q2)
    (heq : relPathOf root q1 = relPathOf root q2) : q1 = q2 := by
  obtain ⟨t1, rfl⟩ := h1
  obtain ⟨t2, rfl⟩ := h2
  have ht1 : t1 ≠ [] := by
    intro hh
    subst hh
    simp at hne1
  have ht2 : t2 ≠ [] := by
    intro hh
    subst hh
    simp at hne2
  unfold relPathOf at heq
  rw [if_neg hne1, if_neg hne2, List.drop_left, List.drop_left] at heq
  have hw1' : ∀ c ∈ t1, '/' ∉ c.data :=
    fun c hc => (hw1 c (List.mem_append_right root hc)).2.2.2
  have hw2' : ∀ c ∈ t2, '/' ∉ c.data :=
    fun c hc => (hw2 c (List.mem_append_right root hc)).2.2.2
  have hsp := congrArg splitSlash heq
  rw [splitSlash_intercalate t1 ht1 hw1', splitSlash_intercalate t2 ht2 hw2'] at hsp
  rw [hsp]

theorem compress_entries_nodup (fs : FS) (root cp : List String) (m' : Nat) (dm : Nat)
    (hnd : (fs.entries.map Prod.fst).Nodup)
    (hnu : ¬ root <+: cp)
    (hroot : fs.lookup root = some (Node.dir dm))
    (hwfu : ∀ e ∈ fs.entries, root <+: e.1 → wfPath e.1) :
    (compressDirectoryToWriter (fs.set cp (Node.file m' [])) root).2.Nodup := by
  unfold compressDirectoryToWriter
  rw [compress_entries_foldl, List.nil_append]
  unfold FS.walkEntries
  rw [List.filter_map, List.map_map]
  apply List.Nodup.map_on
  · intro q1 hq1 q2 hq2 heq
    have hmem1 := List.mem_of_mem_filter hq1
    have hmem2 := List.mem_of_mem_filter hq2
    have hfile1 := List.of_mem_filter hq1
    have hfile2 := List.of_mem_filter hq2
    have hK1 := (sortLex_perm _).mem_iff.mp hmem1
    have hK2 := (sortLex_perm _).mem_iff.mp hmem2
    obtain ⟨hkeys1, hunder1'⟩ := List.mem_filter.mp hK1
    obtain ⟨hkeys2, hunder2'⟩ := List.mem_filter.mp hK2
    have hunder1 : root <+: q1 := by simpa using hunder1'
    have hunder2 : root <+: q2 := by simpa using hunder2'
    have hq1cp : q1 ≠ cp := fun hh => hnu (hh ▸ hunder1)
    have hq2cp : q2 ≠ cp := fun hh => hnu (hh ▸ hunder2)
    have hfs1 : q1 ∈ fs.entries.map Prod.fst := by
      have hc : (fs.set cp (Node.file m' [])).entries.map Prod.fst
          = cp :: fs.entries.map Prod.fst := rfl
      rw [hc] at hkeys1
      rcases List.mem_cons.mp hkeys1 with hh | hh
      · exact absurd hh hq1cp
      · exact hh
    have hfs2 : q2 ∈ fs.entries.map Prod.fst := by
      have hc : (fs.set cp (Node.file m' [])).entries.map Prod.fst
          = cp :: fs.entries.map Prod.fst := rfl
      rw [hc] at hkeys2
      rcases List.mem_cons.mp hkeys2 with hh | hh
      · exact absurd hh hq2cp
      · exact hh
    obtain ⟨e1, he1, he1q⟩ := List.mem_map.mp hfs1
    obtain ⟨e2, he2, he2q⟩ := List.mem_map.mp hfs2
    obtain ⟨q1', n1⟩ := e1
    obtain ⟨q2', n2⟩ := e2
    simp only at he1q he2q
    subst he1q
    subst he2q
    have hl1 : fs.lookup q1' = some n1 := FS.lookup_of_mem_nodup fs q1' n1 hnd he1
    have hl2 : fs.lookup q2' = some n2 := FS.lookup_of_mem_nodup fs q2' n2 hnd he2
    have hl1' : (fs.set cp (Node.file m' [])).lookup q1' = some n1 := by
      rw [FS.lookup_set_ne _ _ _ _ hq1cp]
      exact hl1
    have hl2' : (fs.set cp (Node.file m' [])).lookup q2' = some n2 := by
      rw [FS.lookup_set_ne _ _ _ _ hq2cp]
      exact hl2
    simp only [Function.comp] at heq hfile1 hfile2
    simp only [hl1'] at heq hfile1
    simp only [hl2'] at heq hfile2
    match n1, hl1, heq, hfile1 with
    | Node.dir _, hl1, heq, hfile1 => simp [nodeWalkEntry] at hfile1
    | Node.file mm1 cc1, hl1, heq, hfile1 =>
        match n2, hl2, heq, hfile2 with
        | Node.dir _, hl2, heq, hfile2 => simp [nodeWalkEntry] at hfile2
        | Node.file mm2 cc2, hl2, heq, hfile2 =>
            have hrel : relPathOf root q1' = relPathOf root q2' := by
              have := congrArg Prod.fst heq
              simpa [nodeWalkEntry] using this
            have hr1 : q1' ≠ root := by
              intro hh
              subst hh
              rw [hroot] at hl1
              exact Node.noConfusion (Option.some.inj hl1)
            have hr2 : q2' ≠ root := by
              intro hh
              subst hh
              rw [hroot] at hl2
              exact Node.noConfusion (Option.some.inj hl2)
            exact relPath_inj root q1' q2' hunder1 hunder2 hr1 hr2
              (hwfu _ he1 hunder1) (hwfu _ he2 hunder2) hrel
  · apply List.Nodup.filter
    apply (sortLex_perm _).nodup_iff.mpr
    have hc : (fs.set cp (Node.file m' [])).entries.map Prod.fst
        = cp :: fs.entries.map Prod.fst := rfl
    rw [hc]
    rw [List.filter_cons_of_neg (by simp [hnu])]
    exact List.Nodup.filter _ hnd

end Pathlib

namespace Pathlib

/-! ## Destination-side preconditions for a fresh extraction -/

theorem dest_lookup_none (destFs : FS) (subZ t : List String)
    (hfresh : ∀ e ∈ destFs.entries, ¬ subZ <+: e.1) (ht : subZ <+: t) :
    destFs.lookup t = none := by
  apply FS.lookup_none_of_no_key
  intro e he hh
  exact hfresh e he (hh.symm ▸ ht)

theorem mkdir_dest_none (destFs : FS) (subZ t : List String)
    (hfresh : ∀ e ∈ destFs.entries, ¬ subZ <+: e.1)
    (ht : subZ <+: t) (hne : t ≠ subZ) :
    ((destFs.mkdirAll subZ 0o755).1).lookup t = none := by
  unfold FS.mkdirAll
  rw [FS.mkdirAllAux_untouched]
  · exact dest_lookup_none destFs subZ t hfresh ht
  · intro hmem
    have hlen := prefixesOf_length_le subZ t hmem
    obtain ⟨u, rfl⟩ := ht
    rw [List.length_append] at hlen
    have hu : u.length = 0 := by omega
    exact hne (by rw [List.length_eq_zero.mp hu, List.append_nil])

theorem mkdir_dest_nofile (destFs : FS) (subZ q : List String)
    (hfresh : ∀ e ∈ destFs.entries, ¬ subZ <+: e.1)
    (hmk : (destFs.mkdirAll subZ 0o755).2 = true)
    (hq : q <+: subZ) (hqne : q ≠ []) :
    ∀ mm cc, ((destFs.mkdirAll subZ 0o755).1).lookup q ≠ some (Node.file mm cc) := by
  intro mm cc hc
  unfold FS.mkdirAll at hc hmk
  rw [FS.mkdirAllAux_files] at hc
  by_cases hqe : q = subZ
  · subst hqe
    rw [dest_lookup_none destFs q q hfresh (List.prefix_refl q)] at hc
    exact Option.noConfusion hc
  · have hmem : q ∈ prefixesOf subZ := mem_prefixesOf_of_ne_nil subZ q hq hqne
    exact FS.mkdirAllAux_nofile_of_ok (prefixesOf subZ) destFs 0o755 hmk q hmem mm cc hc

theorem mkdir_dest_clean (destFs : FS) (subZ t : List String)
    (hfresh : ∀ e ∈ destFs.entries, ¬ subZ <+: e.1)
    (hmk : (destFs.mkdirAll subZ 0o755).2 = true)
    (ht : subZ <+: t) :
    ∀ q, q <+: t → q ≠ t → q ≠ [] →
      ∀ mm cc, ((destFs.mkdirAll subZ 0o755).1).lookup q ≠ some (Node.file mm cc) := by
  intro q hq1 hq2 hq3 mm cc hc
  by_cases hql : q.length ≤ subZ.length
  · have hqsub : q <+: subZ := List.prefix_of_prefix_length_le hq1 ht hql
    exact mkdir_dest_nofile destFs subZ q hfresh hmk hqsub hq3 mm cc hc
  · have hsubq : subZ <+: q := List.prefix_of_prefix_length_le ht hq1 (by omega)
    have hqne : q ≠ subZ := by
      intro hh
      subst hh
      omega
    rw [mkdir_dest_none destFs subZ q hfresh hsubq hqne] at hc
    exact Option.noConfusion hc

end Pathlib

namespace Pathlib

/-- The extraction targets of two distinct archive entries produced by one
compression run never stand in a prefix relation (assuming distinct file
keys under the root are never prefixes of one another). -/
theorem entries_pairwise_targets (fs : FS) (root cp : List String) (m' : Nat) (dm : Nat)
    (subZ : List String)
    (hnd : (fs.entries.map Prod.fst).Nodup)
    (hnu : ¬ root <+: cp)
    (hroot : fs.lookup root = some (Node.dir dm))
    (hwfu : ∀ e ∈ fs.entries, root <+: e.1 → wfPath e.1)
    (hnopre : ∀ r1 mm1 cc1 r2 mm2 cc2, (r1, Node.file mm1 cc1) ∈ fs.entries →
      (r2, Node.file mm2 cc2) ∈ fs.entries → root <+: r1 → root <+: r2 →
      r1 <+: r2 → r1 = r2) :
    (compressDirectoryToWriter (fs.set cp (Node.file m' [])) root).2.Pairwise
      (fun a b => ¬ fsJoin subZ a.1 <+: fsJoin subZ b.1 ∧
        ¬ fsJoin subZ b.1 <+: fsJoin subZ a.1) := by
  have hnodup := compress_entries_nodup fs root cp m' dm hnd hnu hroot hwfu
  refine List.Pairwise.imp_of_mem ?_ hnodup
  intro a b ha hb hab
  obtain ⟨r1, mm1, cc1, hmem1, hu1, hl1, ha1⟩ :=
    compress_entries_src fs root cp m' hnd hnu a ha
  obtain ⟨r2, mm2, cc2, hmem2, hu2, hl2, hb1⟩ :=
    compress_entries_src fs root cp m' hnd hnu b hb
  subst ha1
  subst hb1
  have hr1ne : r1 ≠ root := by
    intro hh
    subst hh
    rw [hroot] at hl1
    exact Node.noConfusion (Option.some.inj hl1)
  have hr2ne : r2 ≠ root := by
    intro hh
    subst hh
    rw [hroot] at hl2
    exact Node.noConfusion (Option.some.inj hl2)
  obtain ⟨hd1, ht1⟩ := file_target_eq root r1 subZ (hwfu _ hmem1 hu1) hu1 hr1ne
  obtain ⟨hd2, ht2⟩ := file_target_eq root r2 subZ (hwfu _ hmem2 hu2) hu2 hr2ne
  have hkey : r1 = r2 → False := by
    intro hp
    subst hp
    rw [hl1] at hl2
    have h2 := Option.some.inj hl2
    apply hab
    rw [show mm1 = mm2 from (Node.file.inj h2).1, show cc1 = cc2 from (Node.file.inj h2).2]
  have hgoal : ¬ fsJoin subZ (relPathOf root r1) <+: fsJoin subZ (relPathOf root r2) ∧
      ¬ fsJoin subZ (relPathOf root r2) <+: fsJoin subZ (relPathOf root r1) := by
    constructor
    · intro hp
      rw [ht1, ht2] at hp
      have hdp : r1.drop root.length <+: r2.drop root.length :=
        (List.prefix_append_right_inj subZ).mp hp
      have hpre12 : r1 <+: r2 := by
        obtain ⟨u1, he1⟩ := id hu1
        obtain ⟨u2, he2⟩ := id hu2
        subst he1
        subst he2
        rw [List.drop_left, List.drop_left] at hdp
        exact (List.prefix_append_right_inj root).mpr hdp
      exact hkey (hnopre r1 mm1 cc1 r2 mm2 cc2 hmem1 hmem2 hu1 hu2 hpre12)
    · intro hp
      rw [ht1, ht2] at hp
      have hdp : r2.drop root.length <+: r1.drop root.length :=
        (List.prefix_append_right_inj subZ).mp hp
      have hpre21 : r2 <+: r1 := by
        obtain ⟨u1, he1⟩ := id hu1
        obtain ⟨u2, he2⟩ := id hu2
        subst he1
        subst he2
        rw [List.drop_left, List.drop_left] at hdp
        exact (List.prefix_append_right_inj root).mpr hdp
      exact hkey (hnopre r2 mm2 cc2 r1 mm1 cc1 hmem2 hmem1 hu2 hu1 hpre21).symm
  exact hgoal

end Pathlib

namespace Pathlib

/-- Extracting (with `zipLoop`) the entry list produced by one compression
run into a fresh destination subdirectory succeeds and reproduces every
source file's relative path and content under that subdirectory; the
extracted files carry the zip read-back mode `0o666`, not the source
mode. -/
theorem zip_loop_roundtrip (fs : FS) (root cp : List String) (m' : Nat) (dm : Nat)
    (destFs : FS) (subZ : List String) (maxSize : Int)
    (hnd : (fs.entries.map Prod.fst).Nodup)
    (hnu : ¬ root <+: cp)
    (hroot : fs.lookup root = some (Node.dir dm))
    (hwfu : ∀ e ∈ fs.entries, root <+: e.1 → wfPath e.1)
    (hnopre : ∀ r1 mm1 cc1 r2 mm2 cc2, (r1, Node.file mm1 cc1) ∈ fs.entries →
      (r2, Node.file mm2 cc2) ∈ fs.entries → root <+: r1 → root <+: r2 →
      r1 <+: r2 → r1 = r2)
    (hsize : ∀ r mm cc, (r, Node.file mm cc) ∈ fs.entries → root <+: r →
      (cc.length : Int) ≤ maxSize)
    (hms : maxSize < 2 ^ 63)
    (hfresh : ∀ e ∈ destFs.entries, ¬ subZ <+: e.1)
    (hmk : (destFs.mkdirAll subZ 0o755).2 = true) :
    (zipLoop (destFs.mkdirAll subZ 0o755).1 subZ
        ((compressDirectoryToWriter (fs.set cp (Node.file m' [])) root).2.map toZipEntry)
        maxSize).err = none ∧
    ∀ r mm cc, (r, Node.file mm cc) ∈ fs.entries → root <+: r →
      (zipLoop (destFs.mkdirAll subZ 0o755).1 subZ
        ((compressDirectoryToWriter (fs.set cp (Node.file m' [])) root).2.map toZipEntry)
        maxSize).fs.lookup (subZ ++ r.drop root.length) = some (Node.file 0o666 cc) := by
  have hsrc : ∀ ε ∈ (compressDirectoryToWriter (fs.set cp (Node.file m' []))
      root).2.map toZipEntry,
      ∃ r mm cc, (r, Node.file mm cc) ∈ fs.entries ∧ root <+: r ∧ r ≠ root ∧
        ε = toZipEntry (relPathOf root r, mm, cc) := by
    intro ε hε
    obtain ⟨x, hx, hxε⟩ := List.mem_map.mp hε
    obtain ⟨r, mm, cc, hmem, hunder, hlook, hxeq⟩ :=
      compress_entries_src fs root cp m' hnd hnu x hx
    have hrne : r ≠ root := by
      intro hh
      subst hh
      rw [hroot] at hlook
      exact Node.noConfusion (Option.some.inj hlook)
    refine ⟨r, mm, cc, hmem, hunder, hrne, ?_⟩
    rw [← hxε, hxeq]
  have hstat : ∀ ε ∈ (compressDirectoryToWriter (fs.set cp (Node.file m' []))
      root).2.map toZipEntry,
      ε.isDir = false ∧ ε.size = ε.data.length ∧ (ε.size : Int) ≤ maxSize ∧
        subZ <+: fsJoin subZ ε.name ∧ subZ ≠ fsJoin subZ ε.name := by
    intro ε hε
    obtain ⟨r, mm, cc, hmem2, hunder2, hrne2, hεeq⟩ := hsrc ε hε
    subst hεeq
    obtain ⟨hdne, htgt⟩ := file_target_eq root r subZ (hwfu _ hmem2 hunder2) hunder2 hrne2
    have htgt2 : fsJoin subZ (toZipEntry (relPathOf root r, mm, cc)).name
        = subZ ++ r.drop root.length := htgt
    refine ⟨rfl, rfl, hsize r mm cc hmem2 hunder2, ?_, ?_⟩
    · rw [htgt2]
      exact ⟨_, rfl⟩
    · rw [htgt2]
      intro hh
      have hlen := congrArg List.length hh
      rw [List.length_append] at hlen
      exact hdne (List.length_eq_zero.mp (by omega))
  have hnone : ∀ ε ∈ (compressDirectoryToWriter (fs.set cp (Node.file m' []))
      root).2.map toZipEntry,
      ((destFs.mkdirAll subZ 0o755).1).lookup (fsJoin subZ ε.name) = none := by
    intro ε hε
    obtain ⟨r, mm, cc, hmem2, hunder2, hrne2, hεeq⟩ := hsrc ε hε
    subst hεeq
    obtain ⟨hdne, htgt⟩ := file_target_eq root r subZ (hwfu _ hmem2 hunder2) hunder2 hrne2
    have htgt2 : fsJoin subZ (toZipEntry (relPathOf root r, mm, cc)).name
        = subZ ++ r.drop root.length := htgt
    rw [htgt2]
    refine mkdir_dest_none destFs subZ _ hfresh ⟨_, rfl⟩ ?_
    intro hh
    have hlen := congrArg List.length hh
    rw [List.length_append] at hlen
    exact hdne (List.length_eq_zero.mp (by omega))
  have hclean : ∀ ε ∈ (compressDirectoryToWriter (fs.set cp (Node.file m' []))
      root).2.map toZipEntry,
      ∀ q, q <+: fsJoin subZ ε.name → q ≠ fsJoin subZ ε.name → q ≠ [] →
        ∀ mm cc, ((destFs.mkdirAll subZ 0o755).1).lookup q ≠ some (Node.file mm cc) := by
    intro ε hε q hq1 hq2 hq3 mm cc
    obtain ⟨r, mm2, cc2, hmem2, hunder2, hrne2, hεeq⟩ := hsrc ε hε
    subst hεeq
    obtain ⟨hdne, htgt⟩ := file_target_eq root r subZ (hwfu _ hmem2 hunder2) hunder2 hrne2
    have htgt2 : fsJoin subZ (toZipEntry (relPathOf root r, mm2, cc2)).name
        = subZ ++ r.drop root.length := htgt
    rw [htgt2] at hq1 hq2
    exact mkdir_dest_clean destFs subZ (subZ ++ r.drop root.length) hfresh hmk
      ⟨_, rfl⟩ q hq1 hq2 hq3 mm cc
  have hpw : ((compressDirectoryToWriter (fs.set cp (Node.file m' []))
      root).2.map toZipEntry).Pairwise
      (fun a b => ¬ fsJoin subZ a.name <+: fsJoin subZ b.name ∧
        ¬ fsJoin subZ b.name <+: fsJoin subZ a.name) := by
    rw [List.pairwise_map]
    exact entries_pairwise_targets fs root cp m' dm subZ hnd hnu hroot hwfu hnopre
  have hw := zipLoop_writes subZ maxSize hms
    ((compressDirectoryToWriter (fs.set cp (Node.file m' [])) root).2.map toZipEntry)
    (destFs.mkdirAll subZ 0o755).1 hstat hnone hclean hpw
  refine ⟨hw.1, ?_⟩
  intro r mm cc hmem hunder
  have hrne : r ≠ root := by
    intro hh
    subst hh
    have hl := FS.lookup_of_mem_nodup fs r _ hnd hmem
    rw [hroot] at hl
    exact Node.noConfusion (Option.some.inj hl)
  obtain ⟨hdne, htgt⟩ := file_target_eq root r subZ (hwfu _ hmem hunder) hunder hrne
  have hεmem : toZipEntry (relPathOf root r, mm, cc)
      ∈ (compressDirectoryToWriter (fs.set cp (Node.file m' [])) root).2.map toZipEntry :=
    List.mem_map.mpr ⟨(relPathOf root r, mm, cc),
      compress_entries_has fs root cp m' hnd hnu r mm cc hmem hunder, rfl⟩
  have hl := hw.2.1 _ hεmem
  have htgt2 : fsJoin subZ (toZipEntry (relPathOf root r, mm, cc)).name
      = subZ ++ r.drop root.length := htgt
  rw [htgt2] at hl
  exact hl

end Pathlib

namespace Pathlib

/-- Extracting (with `untarLoop`) the entry list produced by one
compression run into a fresh destination subdirectory succeeds and
reproduces every source file (its mode masked to `0o777`) under that
subdirectory. -/
theorem tar_loop_roundtrip (fs : FS) (root cp : List String) (m' : Nat) (dm : Nat)
    (destFs : FS) (subT : List String) (maxSize : Int)
    (hnd : (fs.entries.map Prod.fst).Nodup)
    (hnu : ¬ root <+: cp)
    (hroot : fs.lookup root = some (Node.dir dm))
    (hwfu : ∀ e ∈ fs.entries, root <+: e.1 → wfPath e.1)
    (hnopre : ∀ r1 mm1 cc1 r2 mm2 cc2, (r1, Node.file mm1 cc1) ∈ fs.entries →
      (r2, Node.file mm2 cc2) ∈ fs.entries → root <+: r1 → root <+: r2 →
      r1 <+: r2 → r1 = r2)
    (hsize : ∀ r mm cc, (r, Node.file mm cc) ∈ fs.entries → root <+: r →
      (cc.length : Int) ≤ maxSize)
    (hfresh : ∀ e ∈ destFs.entries, ¬ subT <+: e.1)
    (hmk : (destFs.mkdirAll subT 0o755).2 = true) :
    (untarLoop (destFs.mkdirAll subT 0o755).1 subT
        ((compressDirectoryToWriter (fs.set cp (Node.file m' [])) root).2.map toTarEntry)
        maxSize).err = none ∧
    ∀ r mm cc, (r, Node.file mm cc) ∈ fs.entries → root <+: r →
      (untarLoop (destFs.mkdirAll subT 0o755).1 subT
        ((compressDirectoryToWriter (fs.set cp (Node.file m' [])) root).2.map toTarEntry)
        maxSize).fs.lookup (subT ++ r.drop root.length)
      = some (Node.file (mm &&& 0o777) cc) := by
  have hsrc : ∀ ε ∈ (compressDirectoryToWriter (fs.set cp (Node.file m' []))
      root).2.map toTarEntry,
      ∃ r mm cc, (r, Node.file mm cc) ∈ fs.entries ∧ root <+: r ∧ r ≠ root ∧
        ε = toTarEntry (relPathOf root r, mm, cc) := by
    intro ε hε
    obtain ⟨x, hx, hxε⟩ := List.mem_map.mp hε
    obtain ⟨r, mm, cc, hmem, hunder, hlook, hxeq⟩ :=
      compress_entries_src fs root cp m' hnd hnu x hx
    have hrne : r ≠ root := by
      intro hh
      subst hh
      rw [hroot] at hlook
      exact Node.noConfusion (Option.some.inj hlook)
    refine ⟨r, mm, cc, hmem, hunder, hrne, ?_⟩
    rw [← hxε, hxeq]
  have hstat : ∀ ε ∈ (compressDirectoryToWriter (fs.set cp (Node.file m' []))
      root).2.map toTarEntry,
      ε.typeflag = TarType.reg ∧ ε.size = (ε.data.length : Int) ∧ ε.size ≤ maxSize ∧
        subT <+: fsJoin subT ε.name ∧ subT ≠ fsJoin subT ε.name := by
    intro ε hε
    obtain ⟨r, mm, cc, hmem2, hunder2, hrne2, hεeq⟩ := hsrc ε hε
    subst hεeq
    obtain ⟨hdne, htgt⟩ := file_target_eq root r subT (hwfu _ hmem2 hunder2) hunder2 hrne2
    have htgt2 : fsJoin subT (toTarEntry (relPathOf root r, mm, cc)).name
        = subT ++ r.drop root.length := htgt
    refine ⟨rfl, rfl, hsize r mm cc hmem2 hunder2, ?_, ?_⟩
    · rw [htgt2]
      exact ⟨_, rfl⟩
    · rw [htgt2]
      intro hh
      have hlen := congrArg List.length hh
      rw [List.length_append] at hlen
      exact hdne (List.length_eq_zero.mp (by omega))
  have hnone : ∀ ε ∈ (compressDirectoryToWriter (fs.set cp (Node.file m' []))
      root).2.map toTarEntry,
      ((destFs.mkdirAll subT 0o755).1).lookup (fsJoin subT ε.name) = none := by
    intro ε hε
    obtain ⟨r, mm, cc, hmem2, hunder2, hrne2, hεeq⟩ := hsrc ε hε
    subst hεeq
    obtain ⟨hdne, htgt⟩ := file_target_eq root r subT (hwfu _ hmem2 hunder2) hunder2 hrne2
    have htgt2 : fsJoin subT (toTarEntry (relPathOf root r, mm, cc)).name
        = subT ++ r.drop root.length := htgt
    rw [htgt2]
    refine mkdir_dest_none destFs subT _ hfresh ⟨_, rfl⟩ ?_
    intro hh
    have hlen := congrArg List.length hh
    rw [List.length_append] at hlen
    exact hdne (List.length_eq_zero.mp (by omega))
  have hclean : ∀ ε ∈ (compressDirectoryToWriter (fs.set cp (Node.file m' []))
      root).2.map toTarEntry,
      ∀ q, q <+: fsJoin subT ε.name → q ≠ fsJoin subT ε.name → q ≠ [] →
        ∀ mm cc, ((destFs.mkdirAll subT 0o755).1).lookup q ≠ some (Node.file mm cc) := by
    intro ε hε q hq1 hq2 hq3 mm cc
    obtain ⟨r, mm2, cc2, hmem2, hunder2, hrne2, hεeq⟩ := hsrc ε hε
    subst hεeq
    obtain ⟨hdne, htgt⟩ := file_target_eq root r subT (hwfu _ hmem2 hunder2) hunder2 hrne2
    have htgt2 : fsJoin subT (toTarEntry (relPathOf root r, mm2, cc2)).name
        = subT ++ r.drop root.length := htgt
    rw [htgt2] at hq1 hq2
    exact mkdir_dest_clean destFs subT (subT ++ r.drop root.length) hfresh hmk
      ⟨_, rfl⟩ q hq1 hq2 hq3 mm cc
  have hpw : ((compressDirectoryToWriter (fs.set cp (Node.file m' []))
      root).2.map toTarEntry).Pairwise
      (fun a b => ¬ fsJoin subT a.name <+: fsJoin subT b.name ∧
        ¬ fsJoin subT b.name <+: fsJoin subT a.name) := by
    rw [List.pairwise_map]
    exact entries_pairwise_targets fs root cp m' dm subT hnd hnu hroot hwfu hnopre
  have hw := untarLoop_writes subT maxSize
    ((compressDirectoryToWriter (fs.set cp (Node.file m' [])) root).2.map toTarEntry)
    (destFs.mkdirAll subT 0o755).1 hstat hnone hclean hpw
  refine ⟨hw.1, ?_⟩
  intro r mm cc hmem hunder
  have hrne : r ≠ root := by
    intro hh
    subst hh
    have hl := FS.lookup_of_mem_nodup fs r _ hnd hmem
    rw [hroot] at hl
    exact Node.noConfusion (Option.some.inj hl)
  obtain ⟨hdne, htgt⟩ := file_target_eq root r subT (hwfu _ hmem hunder) hunder hrne
  have hεmem : toTarEntry (relPathOf root r, mm, cc)
      ∈ (compressDirectoryToWriter (fs.set cp (Node.file m' [])) root).2.map toTarEntry :=
    List.mem_map.mpr ⟨(relPathOf root r, mm, cc),
      compress_entries_has fs root cp m' hnd hnu r mm cc hmem hunder, rfl⟩
  have hl := hw.2.1 _ hεmem
  have htgt2 : fsJoin subT (toTarEntry (relPathOf root r, mm, cc)).name
      = subT ++ r.drop root.length := htgt
  rw [htgt2] at hl
  exact hl

end Pathlib

namespace Pathlib

/-- C2 (counterexample): with `MaxSize` 10, a source tree whose only file
holds 11 bytes compresses fine, but extracting the produced archive fails
with `FileTooLarge` and the file is not reproduced, so the round-trip
property as stated fails for trees with files larger than the configured
size budget. -/
theorem c2_roundtrip_counterexample :
    (ZipDir ⟨[(["tmp"], Node.dir 0o755), (["tmp", "src"], Node.dir 0o755),
        (["tmp", "src", "big"], Node.file 0o644 [0, 1, 2, 3, 4, 5, 6, 7, 8, 9, 10])]⟩
      ⟨["tmp", "src"], "/tmp/src"⟩ "arch").err = none ∧
    (Unzip ⟨[(["out"], Node.dir 0o755)]⟩ ["out"] (withExtension "arch" ".zip")
        ((ZipDir ⟨[(["tmp"], Node.dir 0o755), (["tmp", "src"], Node.dir 0o755),
            (["tmp", "src", "big"], Node.file 0o644 [0, 1, 2, 3, 4, 5, 6, 7, 8, 9, 10])]⟩
          ⟨["tmp", "src"], "/tmp/src"⟩ "arch").entries.map toZipEntry) 10).err
      = some XErr.fileTooLarge ∧
    (Unzip ⟨[(["out"], Node.dir 0o755)]⟩ ["out"] (withExtension "arch" ".zip")
        ((ZipDir ⟨[(["tmp"], Node.dir 0o755), (["tmp", "src"], Node.dir 0o755),
            (["tmp", "src", "big"], Node.file 0o644 [0, 1, 2, 3, 4, 5, 6, 7, 8, 9, 10])]⟩
          ⟨["tmp", "src"], "/tmp/src"⟩ "arch").entries.map toZipEntry) 10).fs.lookup
      ["out", "arch", "big"] = none := by
  decide

end Pathlib

namespace Pathlib

/-- C2 (amended): for every directory tree in which each regular file's
content is at most the configured `MaxSize` bytes, compressing with
`ZipDir` / `TarGzDir` and extracting the produced archive with `Unzip` /
`Untar` into a destination that does not already contain the extraction
subdirectory succeeds and reproduces, under that subdirectory, every
file's relative path and byte-for-byte content.  Modes are not part of
the round trip: `Unzip` creates every file with the zip read-back mode
`0o666` (zip entries are written without mode bits), and `Untar`
reproduces the source mode masked to `0o777`. -/
theorem c2_amended_roundtrip (fs : FS) (p : FsPathM) (zfn tfn : String)
    (destFsZ destFsT : FS) (destDirZ destDirT : List String)
    (maxSize : Int) (dm : Nat)
    (hnd : (fs.entries.map Prod.fst).Nodup)
    (hroot : fs.lookup p.absPath = some (Node.dir dm))
    (hrootne : p.absPath ≠ [])
    (hwfu : ∀ e ∈ fs.entries, p.absPath <+: e.1 → wfPath e.1)
    (hnopre : ∀ e1 ∈ fs.entries, ∀ e2 ∈ fs.entries, e1.2.isFile = true →
      e2.2.isFile = true → p.absPath <+: e1.1 → p.absPath <+: e2.1 →
      e1.1 <+: e2.1 → e1.1 = e2.1)
    (hsize : ∀ e ∈ fs.entries, p.absPath <+: e.1 → (e.2.contentLen : Int) ≤ maxSize)
    (hms : maxSize < 2 ^ 63)
    (hzf : '/' ∉ zfn.data) (htf : '/' ∉ tfn.data) :
    ((ZipDir fs p zfn).err = none →
      (∀ e ∈ destFsZ.entries, ¬ zipSubDir destDirZ (withExtension zfn ".zip") <+: e.1) →
      (destFsZ.mkdirAll (zipSubDir destDirZ (withExtension zfn ".zip")) 0o755).2 = true →
      (Unzip destFsZ destDirZ (withExtension zfn ".zip")
          ((ZipDir fs p zfn).entries.map toZipEntry) maxSize).err = none ∧
      ∀ r mm cc, (r, Node.file mm cc) ∈ fs.entries → p.absPath <+: r →
        (Unzip destFsZ destDirZ (withExtension zfn ".zip")
            ((ZipDir fs p zfn).entries.map toZipEntry) maxSize).fs.lookup
          (zipSubDir destDirZ (withExtension zfn ".zip") ++ r.drop p.absPath.length)
        = some (Node.file 0o666 cc)) ∧
    ((TarGzDir fs p tfn).err = none →
      (∀ e ∈ destFsT.entries, ¬ tarSubDir destDirT (withExtension tfn ".tar.gz") <+: e.1) →
      (destFsT.mkdirAll (tarSubDir destDirT (withExtension tfn ".tar.gz")) 0o755).2
          = true →
      (Untar destFsT destDirT (withExtension tfn ".tar.gz")
          ((TarGzDir fs p tfn).entries.map toTarEntry) maxSize).err = none ∧
      ∀ r mm cc, (r, Node.file mm cc) ∈ fs.entries → p.absPath <+: r →
        (Untar destFsT destDirT (withExtension tfn ".tar.gz")
            ((TarGzDir fs p tfn).entries.map toTarEntry) maxSize).fs.lookup
          (tarSubDir destDirT (withExtension tfn ".tar.gz") ++ r.drop p.absPath.length)
        = some (Node.file (mm &&& 0o777) cc)) := by
  have hnopreR : ∀ r1 mm1 cc1 r2 mm2 cc2, (r1, Node.file mm1 cc1) ∈ fs.entries →
      (r2, Node.file mm2 cc2) ∈ fs.entries → p.absPath <+: r1 → p.absPath <+: r2 →
      r1 <+: r2 → r1 = r2 :=
    fun r1 mm1 cc1 r2 mm2 cc2 h1 h2 hu1 hu2 hp =>
      hnopre (r1, Node.file mm1 cc1) h1 (r2, Node.file mm2 cc2) h2 rfl rfl hu1 hu2 hp
  have hsizeR : ∀ r mm cc, (r, Node.file mm cc) ∈ fs.entries → p.absPath <+: r →
      (cc.length : Int) ≤ maxSize :=
    fun r mm cc h hu => hsize (r, Node.file mm cc) h hu
  constructor
  · intro herr hfresh hmk
    have herr0 : (prepareCompression fs p zfn ".zip").err = none := by
      by_cases hc : (prepareCompression fs p zfn ".zip").err = none
      · exact hc
      · unfold ZipDir at herr
        rw [if_neg hc] at herr
        exact absurd herr hc
    obtain ⟨m', hset, hnu⟩ := prep_ok_analysis fs p zfn ".zip" hzf (by decide) (by decide)
      dm hroot hrootne herr0
    have hents : (ZipDir fs p zfn).entries
        = (compressDirectoryToWriter (fs.set (fsJoin p.absPath.dropLast
            (withExtension zfn ".zip")) (Node.file m' [])) p.absPath).2 := by
      unfold ZipDir
      rw [if_pos herr0]
      show (compressDirectoryToWriter (prepareCompression fs p zfn ".zip").fs p.absPath).2
        = _
      rw [hset]
    have hmk2 : ¬ (destFsZ.mkdirAll (zipSubDir destDirZ (withExtension zfn ".zip"))
        0o755).2 = false := by
      rw [hmk]
      decide
    have hcore := zip_loop_roundtrip fs p.absPath
      (fsJoin p.absPath.dropLast (withExtension zfn ".zip")) m' dm destFsZ
      (zipSubDir destDirZ (withExtension zfn ".zip")) maxSize hnd hnu hroot hwfu hnopreR
      hsizeR hms hfresh hmk
    rw [hents]
    unfold Unzip
    rw [if_neg hmk2]
    exact hcore
  · intro herr hfresh hmk
    have herr0 : (prepareCompression fs p tfn ".tar.gz").err = none := by
      by_cases hc : (prepareCompression fs p tfn ".tar.gz").err = none
      · exact hc
      · unfold TarGzDir at herr
        rw [if_neg hc] at herr
        exact absurd herr hc
    obtain ⟨m', hset, hnu⟩ := prep_ok_analysis fs p tfn ".tar.gz" htf (by decide)
      (by decide) dm hroot hrootne herr0
    have hents : (TarGzDir fs p tfn).entries
        = (compressDirectoryToWriter (fs.set (fsJoin p.absPath.dropLast
            (withExtension tfn ".tar.gz")) (Node.file m' [])) p.absPath).2 := by
      unfold TarGzDir
      rw [if_pos herr0]
      show (compressDirectoryToWriter (prepareCompression fs p tfn ".tar.gz").fs
        p.absPath).2 = _
      rw [hset]
    have hmk2 : ¬ (destFsT.mkdirAll (tarSubDir destDirT (withExtension tfn ".tar.gz"))
        0o755).2 = false := by
      rw [hmk]
      decide
    have hcore := tar_loop_roundtrip fs p.absPath
      (fsJoin p.absPath.dropLast (withExtension tfn ".tar.gz")) m' dm destFsT
      (tarSubDir destDirT (withExtension tfn ".tar.gz")) maxSize hnd hnu hroot hwfu
      hnopreR hsizeR hfresh hmk
    rw [hents]
    unfold Untar
    rw [if_neg hmk2]
    exact hcore

end Pathlib

namespace Pathlib

/-- Concrete instantiation of the amended C2 round-trip on a two-file
tree (one file in the root, one in a subdirectory). -/
theorem c2_amended_roundtrip_witness :
    (Unzip ⟨[(["out"], Node.dir 0o755)]⟩ ["out"] (withExtension "arch" ".zip")
        ((ZipDir ⟨[(["tmp"], Node.dir 0o755), (["tmp", "src"], Node.dir 0o755),
            (["tmp", "src", "a.txt"], Node.file 0o644 [104, 105]),
            (["tmp", "src", "sub"], Node.dir 0o700),
            (["tmp", "src", "sub", "b.txt"], Node.file 0o600 [119])]⟩
          ⟨["tmp", "src"], "/tmp/src"⟩ "arch").entries.map toZipEntry)
        defaultMaxSize).err = none ∧
    (Unzip ⟨[(["out"], Node.dir 0o755)]⟩ ["out"] (withExtension "arch" ".zip")
        ((ZipDir ⟨[(["tmp"], Node.dir 0o755), (["tmp", "src"], Node.dir 0o755),
            (["tmp", "src", "a.txt"], Node.file 0o644 [104, 105]),
            (["tmp", "src", "sub"], Node.dir 0o700),
            (["tmp", "src", "sub", "b.txt"], Node.file 0o600 [119])]⟩
          ⟨["tmp", "src"], "/tmp/src"⟩ "arch").entries.map toZipEntry)
        defaultMaxSize).fs.lookup ["out", "arch", "sub", "b.txt"]
      = some (Node.file 0o666 [119]) ∧
    (Untar ⟨[(["out2"], Node.dir 0o755)]⟩ ["out2"] (withExtension "arch" ".tar.gz")
        ((TarGzDir ⟨[(["tmp"], Node.dir 0o755), (["tmp", "src"], Node.dir 0o755),
            (["tmp", "src", "a.txt"], Node.file 0o644 [104, 105]),
            (["tmp", "src", "sub"], Node.dir 0o700),
            (["tmp", "src", "sub", "b.txt"], Node.file 0o600 [119])]⟩
          ⟨["tmp", "src"], "/tmp/src"⟩ "arch").entries.map toTarEntry)
        defaultMaxSize).err = none ∧
    (Untar ⟨[(["out2"], Node.dir 0o755)]⟩ ["out2"] (withExtension "arch" ".tar.gz")
        ((TarGzDir ⟨[(["tmp"], Node.dir 0o755), (["tmp", "src"], Node.dir 0o755),
            (["tmp", "src", "a.txt"], Node.file 0o644 [104, 105]),
            (["tmp", "src", "sub"], Node.dir 0o700),
            (["tmp", "src", "sub", "b.txt"], Node.file 0o600 [119])]⟩
          ⟨["tmp", "src"], "/tmp/src"⟩ "arch").entries.map toTarEntry)
        defaultMaxSize).fs.lookup ["out2", "arch", "a.txt"]
      = some (Node.file (0o644 &&& 0o777) [104, 105]) := by
  have h := c2_amended_roundtrip
    ⟨[(["tmp"], Node.dir 0o755), (["tmp", "src"], Node.dir 0o755),
      (["tmp", "src", "a.txt"], Node.file 0o644 [104, 105]),
      (["tmp", "src", "sub"], Node.dir 0o700),
      (["tmp", "src", "sub", "b.txt"], Node.file 0o600 [119])]⟩
    ⟨["tmp", "src"], "/tmp/src"⟩ "arch" "arch"
    ⟨[(["out"], Node.dir 0o755)]⟩ ⟨[(["out2"], Node.dir 0o755)]⟩ ["out"] ["out2"]
    defaultMaxSize 0o755
    (by decide) (by decide) (by decide)
    (by simp only [wfPath, wfComponent]; decide)
    (by decide) (by decide) (by decide) (by decide) (by decide)
  have hz := h.1 (by decide) (by decide) (by decide)
  have ht := h.2 (by decide) (by decide) (by decide)
  refine ⟨hz.1, ?_, ht.1, ?_⟩
  · exact hz.2 ["tmp", "src", "sub", "b.txt"] 0o600 [119] (by decide) (by decide)
  · exact ht.2 ["tmp", "src", "a.txt"] 0o644 [104, 105] (by decide) (by decide)

end Pathlib
